import Mathlib

/-!
# ipcq: IPC through System V message queues

A shallow embedding of `ipcq.c`.  The C functions are written once, over an
interface `Sys` that stands for the library and system calls the program makes
(`ftok`, `msgget`, `msgsnd`, `msgrcv`, `msgctl`, `usleep`, `printf`).  Two
instances of the interface are given:

* `scripted`: every call is answered from a script and logged, so that a
  property can be stated for whatever the calls answer (other processes,
  permissions, resource limits);
* `kernelSys`: a sequential model of the System V message queue table, in
  which the calls of one process act on the table.

A C `char` is a `Nat` (0 is the terminator), a C `int` is an `Int`.
-/

namespace Ipcq

/-! ## Constants of `ipcq.c` -/

def MSIZE : Nat := 1024
/-- The character `'A'`. -/
def PROJ_ID : Nat := 65

def ACTION_UNKNOWN : Int := 0
def ACTION_QUEUE : Int := 1
def ACTION_TIME : Int := 2
def ACTION_GET : Int := 3
def ACTION_UNIQ_Q : Int := 4
def ACTION_Q_EXISTS : Int := 5

def POLLS_PER_SECOND : Nat := 3
def POLL_INTERVAL_USEC : Nat := 1000000 / POLLS_PER_SECOND

/-! ## Constants of the C library headers (Linux values) -/

def EXIT_SUCCESS : Int := 0
def EXIT_FAILURE : Int := 1
def IPC_PRIVATE : Int := 0
def IPC_CREAT : Nat := 0o1000
def IPC_EXCL : Nat := 0o2000
def IPC_NOWAIT : Nat := 0o4000
def ENOENT : Nat := 2
def E2BIG : Nat := 7
def EEXIST : Nat := 17
def EINVAL : Nat := 22
def ENOMSG : Nat := 42
def EIDRM : Nat := 43

/-! ## C strings and the message buffer -/

/-- The C string stored at a pointer, where `mem` lists the chars in memory
from the pointer on: the chars before the first terminator (all of `mem` when
it lists the chars of a string without its terminator). -/
def cstring (mem : List Nat) : List Nat := mem.takeWhile (fun c => c ≠ 0)

/-- The value of `strlen(p)` where `mem` is the memory at `p`. -/
def strlen (mem : List Nat) : Nat := (cstring mem).length

/-- The array `dst` after `strncpy(dst, src, n)`: at most `n` chars of the string at `src` are
copied, and when the string is shorter the rest of the `n` chars of `dst` is
filled with terminators. -/
def strncpy (dst src : List Nat) (n : Nat) : List Nat :=
  let s := (cstring src).take n
  s ++ List.replicate (n - s.length) 0 ++ dst.drop n

/-- The `struct msgbuf` of the program: `mtext` is the array of `MSIZE` chars. -/
structure msgbuf where
  mtype : Int
  mtext : List Nat

/-! ## The calls the program makes -/

/-- The library and system calls of `ipcq.c` over a world of type `σ`.
A call that can fail answers `Except.error errno`; a call that can block
answers `none` when it never returns. -/
structure Sys (σ : Type) where
  /-- The call `ftok(path, proj_id)`: the key, or -1. -/
  ftok : List Nat → Nat → σ → Int
  /-- The call `msgget(key, msgflg)`: the queue identifier. -/
  msgget : Int → Nat → σ → Except Nat Nat × σ
  /-- The call `msgsnd(msqid, &buf, msgsz, msgflg)`. -/
  msgsnd : Int → msgbuf → Nat → Nat → σ → Option (Except Nat Unit × σ)
  /-- The call `msgrcv(msqid, &buf, msgsz, msgtyp, msgflg)`: the type and the
  chars of the message taken from the queue. -/
  msgrcv : Int → Nat → Int → Nat → σ → Option (Except Nat (Int × List Nat) × σ)
  /-- The call `msgctl(msqid, IPC_RMID, NULL)`. -/
  msgctl_rmid : Int → σ → Except Nat Unit × σ
  /-- The call `usleep(usec)`. -/
  usleep : Nat → σ → σ
  /-- The chars written to standard output. -/
  stdout : List Nat → σ → σ
  /-- The usage text of `help`, written to standard output (`true`) or to
  standard error (`false`); the text itself is not modelled. -/
  usage : Bool → List Nat → σ → σ

variable {σ : Type}

/-- The call `printf("%s\n", p)` where `mem` is the memory at `p`. -/
def printf_line (sys : Sys σ) (mem : List Nat) (s : σ) : σ :=
  sys.stdout (cstring mem ++ [10]) s

/-- What `msgrcv` leaves in the caller's buffer: the message type and the
received chars at the start of `mtext`, the rest of `mtext` unchanged. -/
def msgbuf.receive (buf : msgbuf) (mtype : Int) (bytes : List Nat) : msgbuf :=
  { mtype := mtype, mtext := bytes ++ buf.mtext.drop bytes.length }

/-! ## Mailbox manager (`ipcq.c` lines 306-349) -/

/-- Get a key for the project path. -/
def getk (sys : Sys σ) (path : List Nat) (s : σ) : Int :=
  sys.ftok path PROJ_ID s

/-- The C return value of `msgget`. -/
def msgget_ret (r : Except Nat Nat) : Int :=
  match r with
  | .ok q => (q : Int)
  | .error _ => -1

/-- The C return value of `msgsnd` and `msgctl`. -/
def status_ret (r : Except Nat Unit) : Int :=
  match r with
  | .ok _ => 0
  | .error _ => -1

/-- Get the message queue for the path. -/
def getqk (sys : Sys σ) (path : List Nat) (s : σ) : Int × σ :=
  let r := sys.msgget (getk sys path s) (0o666 ||| IPC_CREAT) s
  (msgget_ret r.1, r.2)

/-- Create a new message queue for the path; the result is negative if it
already exists. -/
def getqk_uniq (sys : Sys σ) (path : List Nat) (s : σ) : Int × σ :=
  let r := sys.msgget (getk sys path s) (0o666 ||| IPC_CREAT ||| IPC_EXCL) s
  (msgget_ret r.1, r.2)

/-- Get an existing message queue for the path; the result is negative if it
cannot be obtained. -/
def getqk_exists (sys : Sys σ) (path : List Nat) (s : σ) : Int × σ :=
  let r := sys.msgget (getk sys path s) 0 s
  (msgget_ret r.1, r.2)

/-- Cleanup the queue. -/
def cleanq (sys : Sys σ) (q : Int) (s : σ) : Int × σ :=
  let r := sys.msgctl_rmid q s
  (status_ret r.1, r.2)

/-! ## Message port -/

/-- The buffer of `sq_queue` at the call of `msgsnd` (lines 207-219):
`buf0` is what the stack holds when the function is entered, `message` is
`none` for a NULL pointer and otherwise the memory at the pointer. -/
def sq_queue_buf (message : Option (List Nat)) (buf0 : msgbuf) : msgbuf :=
  match message with
  | some mem =>
    { mtype := 1, mtext := (strncpy buf0.mtext mem (MSIZE - 1)).set (MSIZE - 1) 0 }
  | none =>
    { mtype := 1, mtext := buf0.mtext.set 0 0 }

/-- Put a message on the queue (lines 202-225). -/
def sq_queue (sys : Sys σ) (path : List Nat) (message : Option (List Nat))
    (buf0 : msgbuf) (s : σ) : Option (Int × σ) :=
  let (msqk, s) := getqk sys path s
  if msqk < 0 then some (-1, s)
  else
    let buf := sq_queue_buf message buf0
    let msg_len := strlen buf.mtext + 1
    match sys.msgsnd msqk buf msg_len 0 s with
    | none => none
    | some (r, s) => some (status_ret r, s)

/-- Get a message from the queue and block until available (lines 233-258). -/
def sq_get (sys : Sys σ) (path : List Nat) (clean : Int)
    (buf0 : msgbuf) (s : σ) : Option (Int × σ) :=
  let (msqk, s) := getqk sys path s
  if msqk < 0 then some (-1, s)
  else
    let buf : msgbuf := { buf0 with mtext := buf0.mtext.set 0 0 }
    match sys.msgrcv msqk MSIZE 0 0 s with
    | none => none
    | some (.error _, s) => some (-1, s)
    | some (.ok (t, bytes), s) =>
      let buf := buf.receive t bytes
      let s := if buf.mtext.getD 0 0 ≠ 0 then printf_line sys buf.mtext s else s
      if clean ≠ 0 then
        let (r, s) := cleanq sys msqk s
        if r = -1 then some (-1, s) else some (0, s)
      else some (0, s)

/-- The value of a C `int` expression whose mathematical value is `x`
(two's complement wrap-around). -/
def int32 (x : Int) : Int := (x + 2 ^ 31) % 2 ^ 32 - 2 ^ 31

/-- The local `total_attempts` of `sq_get_t` (line 280). -/
def total_attempts (sec : Int) : Int := int32 (sec * POLLS_PER_SECOND)

/-- The poll loop of `sq_get_t` (lines 281-292) with `n` iterations left,
that is `n = total_attempts - i`.  The answer `Except.error r` is a `return r`
from inside the loop; `Except.ok (retval, buf)` is the state of the locals
when control reaches line 293. -/
def sq_get_t_loop (sys : Sys σ) (msqk : Int) :
    Nat → Int → msgbuf → σ → Option (Except Int (Int × msgbuf) × σ)
  | 0, retval, buf, s => some (.ok (retval, buf), s)
  | n + 1, retval, buf, s =>
    match sys.msgrcv msqk MSIZE 0 IPC_NOWAIT s with
    | none => none
    | some (.ok (t, bytes), s) => some (.ok (0, buf.receive t bytes), s)
    | some (.error errno, s) =>
      if errno ≠ ENOMSG then some (.error (-1), s)
      else sq_get_t_loop sys msqk n retval buf (sys.usleep POLL_INTERVAL_USEC s)

/-- Get a message from the queue and block until available or about `sec`
seconds have passed (lines 267-304). -/
def sq_get_t (sys : Sys σ) (path : List Nat) (clean : Int) (sec : Int)
    (buf0 : msgbuf) (s : σ) : Option (Int × σ) :=
  let retval : Int := -1
  let (msqk, s) := getqk sys path s
  if msqk < 0 then some (-1, s)
  else
    let buf : msgbuf := { buf0 with mtext := buf0.mtext.set 0 0 }
    match sq_get_t_loop sys msqk (total_attempts sec).toNat retval buf s with
    | none => none
    | some (.error r, s) => some (r, s)
    | some (.ok (retval, buf), s) =>
      let s := if buf.mtext.getD 0 0 ≠ 0 then printf_line sys buf.mtext s else s
      if clean ≠ 0 then
        let (r, s) := cleanq sys msqk s
        if r = -1 then some (-1, s) else some (retval, s)
      else some (retval, s)

/-! ## Command line (`main`, lines 47-152) -/

/-- The char `s[i]` of a string, the terminator at its end included. -/
def charAt (s : List Nat) (i : Nat) : Nat := s.getD i 0

/-- White space of the C locale: the space and the codes 9 to 13. -/
def isspace (c : Nat) : Bool := c = 32 || (9 ≤ c && c ≤ 13)

/-- The decimal digits, codes 48 to 57. -/
def isdigit (c : Nat) : Bool := 48 ≤ c && c ≤ 57

/-- The value of the leading decimal digits, after the value `acc` of the
digits already read. -/
def atoi_digits : List Nat → Int → Int
  | [], acc => acc
  | c :: cs, acc => if isdigit c then atoi_digits cs (acc * 10 + ((c - 48 : Nat) : Int)) else acc

/-- The value of `atoi(s)`, which is `(int) strtol(s, NULL, 10)`: white space,
an optional sign, decimal digits; out of the range of `long` the value
saturates. -/
def atoi (s : List Nat) : Int :=
  let s := s.dropWhile isspace
  let v : Int :=
    match s with
    | 45 :: r => - atoi_digits r 0
    | 43 :: r => atoi_digits r 0
    | _ => atoi_digits s 0
  int32 (max (-(2 ^ 63)) (min (2 ^ 63 - 1) v))

/-- The locals of `main` that the options set. -/
structure Args where
  action : Int
  wtime : Int
  clean : Int
  path : Option (List Nat)
  message : Option (List Nat)

/-- The option loop of `main` (lines 56-117) over the arguments `argv[i..]`
that are left.  The answer `Except.error st` is a call `help(argv[0], st)`,
which leaves the program; `Except.ok (rest, a)` gives the arguments
`argv[i..]` and the locals at the end of the loop.  The chars are given by
their codes: 45 is the dash, 99 and 67 are c and C, 101 and 69 are e and E,
102 and 70 are f and F, 103 and 71 are g and G, 104, 72 and 63 are h, H and
the question mark, 110 and 78 are n and N, 113 and 81 are q and Q, 116 and 84
are t and T. -/
def parse_args : List (List Nat) → Args → Except Int (List (List Nat) × Args)
  | [], a => .ok ([], a)
  | arg :: rest, a =>
    if charAt arg 0 ≠ 45 then .ok (arg :: rest, a)
    else
      let c := charAt arg 1
      if c = 99 ∨ c = 67 then parse_args rest { a with clean := 1 }
      else if c = 101 ∨ c = 69 then parse_args rest { a with action := ACTION_Q_EXISTS }
      else if c = 102 ∨ c = 70 then
        if charAt arg 2 ≠ 0 then parse_args rest { a with path := some (arg.drop 2) }
        else
          match rest with
          | p :: rest => parse_args rest { a with path := some p }
          | [] => .error EXIT_FAILURE
      else if c = 103 ∨ c = 71 then parse_args rest { a with action := ACTION_GET }
      else if c = 104 ∨ c = 72 ∨ c = 63 then .error EXIT_SUCCESS
      else if c = 110 ∨ c = 78 then parse_args rest { a with action := ACTION_UNIQ_Q }
      else if c = 113 ∨ c = 81 then
        if charAt arg 2 ≠ 0 then
          parse_args rest { a with action := ACTION_QUEUE, message := some (arg.drop 2) }
        else
          match rest with
          | m :: rest => parse_args rest { a with action := ACTION_QUEUE, message := some m }
          | [] => .error EXIT_FAILURE
      else if c = 116 ∨ c = 84 then
        if charAt arg 2 ≠ 0 then
          parse_args rest { a with action := ACTION_TIME, wtime := atoi (arg.drop 2) }
        else
          match rest with
          | t :: rest => parse_args rest { a with action := ACTION_TIME, wtime := atoi t }
          | [] => .error EXIT_FAILURE
      else .error EXIT_FAILURE

/-- Exit the program with a message on use (lines 161-194): the usage text
goes to standard output for `EXIT_SUCCESS` and to standard error otherwise,
and the program exits with `exit_status`. -/
def help (sys : Sys σ) (filename : List Nat) (exit_status : Int) (s : σ) : Int × σ :=
  (exit_status, sys.usage (decide (exit_status = EXIT_SUCCESS)) filename s)

/-- The program: `argv` holds the strings of the command line, `argv[0]`
included; the answer is the exit status (the value `main` returns or the
argument of `exit`). -/
def main (sys : Sys σ) (argv : List (List Nat)) (buf0 : msgbuf) (s : σ) : Option (Int × σ) :=
  let argv0 := argv.headD []
  match parse_args argv.tail
      { action := ACTION_UNKNOWN, wtime := 0, clean := 0, path := none, message := none } with
  | .error st => some (help sys argv0 st s)
  | .ok (rest, a) =>
    let path := if a.path.isNone then rest.head? else a.path
    match path with
    | none => some (help sys argv0 EXIT_FAILURE s)
    | some path =>
      if a.action = ACTION_GET then sq_get sys path a.clean buf0 s
      else if a.action = ACTION_QUEUE then sq_queue sys path a.message buf0 s
      else if a.action = ACTION_Q_EXISTS then
        let (r, s) := getqk_exists sys path s
        if r < 0 then some (EXIT_FAILURE, s) else some (EXIT_SUCCESS, s)
      else if a.action = ACTION_TIME then
        match sq_get_t sys path a.clean a.wtime buf0 s with
        | none => none
        | some (r, s) => if r < 0 then some (EXIT_FAILURE, s) else some (EXIT_SUCCESS, s)
      else if a.action = ACTION_UNIQ_Q then
        let (r, s) := getqk_uniq sys path s
        if r < 0 then some (EXIT_FAILURE, s) else some (EXIT_SUCCESS, s)
      else
        -- `if (clean) if (cleanq(getqk(path)) < 0) return EXIT_FAILURE;`
        -- followed by `return EXIT_SUCCESS;`, which the outer `if` does not guard
        if a.clean ≠ 0 then
          let (q, s) := getqk sys path s
          let (r, s) := cleanq sys q s
          if r < 0 then some (EXIT_FAILURE, s) else some (EXIT_SUCCESS, s)
        else some (EXIT_SUCCESS, s)

/-! ## First instance: calls answered from a script -/

/-- A call made by the program, with its arguments; for `msgsnd` the buffer
is given by its type and the `msgsz` chars of its text that the call reads. -/
inductive Event where
  | msgget (key : Int) (msgflg : Nat)
  | msgsnd (msqid : Int) (mtype : Int) (mtext : List Nat) (msgsz : Nat) (msgflg : Nat)
  | msgrcv (msqid : Int) (msgsz : Nat) (msgtyp : Int) (msgflg : Nat)
  | rmid (msqid : Int)
  | usleep (usec : Nat)
  | stdout (chars : List Nat)
  | usage (out : Bool)
  deriving DecidableEq

/-- The answers of the environment: `rcv n` answers the call of `msgrcv` that
follows `n` earlier ones. -/
structure Script where
  key : List Nat → Int
  get : Except Nat Nat
  snd : Option (Except Nat Unit)
  rcv : Nat → Option (Except Nat (Int × List Nat))
  rmid : Except Nat Unit

def Event.isRcv : Event → Bool
  | .msgrcv _ _ _ _ => true
  | _ => false

def Event.isSleep : Event → Bool
  | .usleep _ => true
  | _ => false

def Event.isRmid : Event → Bool
  | .rmid _ => true
  | _ => false

def Event.isStdout : Event → Bool
  | .stdout _ => true
  | _ => false

/-- The answer to `msgrcv` with buffer size `msgsz`: a message longer than
the buffer is not delivered, the call fails with `E2BIG`. -/
def Script.rcvAnswer (sc : Script) (n msgsz : Nat) : Option (Except Nat (Int × List Nat)) :=
  match sc.rcv n with
  | some (.ok (t, bytes)) => if msgsz < bytes.length then some (.error E2BIG) else some (.ok (t, bytes))
  | r => r

/-- The world is the log of the calls made so far, oldest first. -/
def scripted (sc : Script) : Sys (List Event) where
  ftok := fun path _ _ => sc.key path
  msgget := fun key flg log => (sc.get, log ++ [.msgget key flg])
  msgsnd := fun q buf sz flg log =>
    sc.snd.map (fun r => (r, log ++ [.msgsnd q buf.mtype (buf.mtext.take sz) sz flg]))
  msgrcv := fun q sz typ flg log =>
    (sc.rcvAnswer (log.countP Event.isRcv) sz).map (fun r => (r, log ++ [.msgrcv q sz typ flg]))
  msgctl_rmid := fun q log => (sc.rmid, log ++ [.rmid q])
  usleep := fun usec log => log ++ [.usleep usec]
  stdout := fun chars log => log ++ [.stdout chars]
  usage := fun out _ log => log ++ [.usage out]

/-! ## Second instance: the message queue table of the kernel

One process at a time acts on the table.  Permission checks and resource
limits are not modelled: a queue that exists can be used and removed, a queue
can always be created, and a message can always be appended. -/

structure Msg where
  mtype : Int
  mtext : List Nat
  deriving DecidableEq

structure MsgQueue where
  key : Int
  msgs : List Msg
  deriving DecidableEq

/-- The table: slot `i` holds the queue whose identifier is `i`, or nothing
once the queue is removed; `stat` gives the device and inode numbers of the
files that exist; `out` is what was written to standard output; `clock` is the
time slept, in microseconds. -/
structure Kernel where
  stat : List Nat → Option (Nat × Nat)
  slots : List (Option MsgQueue)
  out : List Nat
  clock : Nat
  usages : List Bool

/-- The key `ftok` computes (glibc): the low 16 bits of the inode number, the
low 8 bits of the device number and the low 8 bits of `proj_id`; -1 when the
file cannot be accessed. -/
def Kernel.ftok (K : Kernel) (path : List Nat) (proj_id : Nat) : Int :=
  match K.stat path with
  | none => -1
  | some (dev, ino) =>
    int32 ((ino % 65536 + (dev % 256) * 65536 + (proj_id % 256) * 16777216 : Nat) : Int)

/-- The identifier of the first queue with the given key. -/
def findKey : List (Option MsgQueue) → Int → Option Nat
  | [], _ => none
  | some q :: rest, key =>
    if q.key = key then some 0 else (findKey rest key).map (fun i => i + 1)
  | none :: rest, key => (findKey rest key).map (fun i => i + 1)

/-- The queue with the given identifier. -/
def Kernel.queue (K : Kernel) (msqid : Int) : Option MsgQueue :=
  if msqid < 0 then none else K.slots.getD msqid.toNat none

/-- A new, empty queue with the given key in a new slot. -/
def Kernel.create (K : Kernel) (key : Int) : Except Nat Nat × Kernel :=
  (.ok K.slots.length, { K with slots := K.slots ++ [some { key := key, msgs := [] }] })

/-- The call `msgget(key, msgflg)`: with `IPC_PRIVATE` a new queue; otherwise
the first queue with the key, unless `IPC_CREAT` and `IPC_EXCL` are both set
(`EEXIST`); when no queue has the key, a new one with `IPC_CREAT` and `ENOENT`
without. -/
def Kernel.msgget (K : Kernel) (key : Int) (msgflg : Nat) : Except Nat Nat × Kernel :=
  if key = IPC_PRIVATE then K.create key
  else
    match findKey K.slots key with
    | some i =>
      if msgflg &&& IPC_CREAT ≠ 0 ∧ msgflg &&& IPC_EXCL ≠ 0 then (.error EEXIST, K)
      else (.ok i, K)
    | none =>
      if msgflg &&& IPC_CREAT ≠ 0 then K.create key else (.error ENOENT, K)

/-- The call `msgsnd(msqid, &buf, msgsz, msgflg)`: the message with the type of
`buf` and the first `msgsz` chars of its text is appended to the queue;
`EINVAL` for an identifier without queue or a type below 1.  The queue has
room for every message, so the call never blocks. -/
def Kernel.msgsnd (K : Kernel) (msqid : Int) (buf : msgbuf) (msgsz : Nat) (_msgflg : Nat) :
    Option (Except Nat Unit × Kernel) :=
  match K.queue msqid with
  | none => some (.error EINVAL, K)
  | some q =>
    if buf.mtype < 1 then some (.error EINVAL, K)
    else
      let m : Msg := { mtype := buf.mtype, mtext := buf.mtext.take msgsz }
      let q : MsgQueue := { q with msgs := q.msgs ++ [m] }
      some (.ok (), { K with slots := K.slots.set msqid.toNat (some q) })

/-- The first message that satisfies `p`, and the queue without it. -/
def takeFirst (p : Msg → Bool) : List Msg → Option (Msg × List Msg)
  | [] => none
  | m :: ms =>
    if p m then some (m, ms)
    else (takeFirst p ms).map (fun r => (r.1, m :: r.2))

/-- The message `msgrcv` selects: for `msgtyp = 0` the first message, for
`msgtyp > 0` the first message of that type, for `msgtyp < 0` the first
message of the lowest type that is at most `-msgtyp`. -/
def selectMsg (msgs : List Msg) (msgtyp : Int) : Option (Msg × List Msg) :=
  if msgtyp = 0 then takeFirst (fun _ => true) msgs
  else if 0 < msgtyp then takeFirst (fun m => m.mtype = msgtyp) msgs
  else
    match ((msgs.map Msg.mtype).filter (fun t => t ≤ -msgtyp)).min? with
    | none => none
    | some t => takeFirst (fun m => m.mtype = t) msgs

/-- The call `msgrcv(msqid, &buf, msgsz, msgtyp, msgflg)`: the selected message
is taken from the queue, unless its text is longer than `msgsz` (`E2BIG`, the
message stays); when there is no such message the call fails with `ENOMSG`
under `IPC_NOWAIT` and otherwise never returns, no other process being there
to send one. -/
def Kernel.msgrcv (K : Kernel) (msqid : Int) (msgsz : Nat) (msgtyp : Int) (msgflg : Nat) :
    Option (Except Nat (Int × List Nat) × Kernel) :=
  match K.queue msqid with
  | none => some (.error EINVAL, K)
  | some q =>
    match selectMsg q.msgs msgtyp with
    | none => if msgflg &&& IPC_NOWAIT ≠ 0 then some (.error ENOMSG, K) else none
    | some (m, rest) =>
      if msgsz < m.mtext.length then some (.error E2BIG, K)
      else
        some (.ok (m.mtype, m.mtext),
          { K with slots := K.slots.set msqid.toNat (some { q with msgs := rest }) })

/-- The call `msgctl(msqid, IPC_RMID, NULL)`: the queue and its messages are
removed; `EINVAL` for an identifier without queue. -/
def Kernel.msgctl_rmid (K : Kernel) (msqid : Int) : Except Nat Unit × Kernel :=
  match K.queue msqid with
  | none => (.error EINVAL, K)
  | some _ => (.ok (), { K with slots := K.slots.set msqid.toNat none })

/-- The calls of the program on the queue table. -/
def kernelSys : Sys Kernel where
  ftok := fun path proj_id K => K.ftok path proj_id
  msgget := fun key flg K => K.msgget key flg
  msgsnd := fun q buf sz flg K => K.msgsnd q buf sz flg
  msgrcv := fun q sz typ flg K => K.msgrcv q sz typ flg
  msgctl_rmid := fun q K => K.msgctl_rmid q
  usleep := fun usec K => { K with clock := K.clock + usec }
  stdout := fun chars K => { K with out := K.out ++ chars }
  usage := fun out _ K => { K with usages := K.usages ++ [out] }

/-- The number of queues with the given key. -/
def keyCount : List (Option MsgQueue) → Int → Nat
  | [], _ => 0
  | some q :: rest, key => (if q.key = key then 1 else 0) + keyCount rest key
  | none :: rest, key => keyCount rest key

/-- The pending messages of the mailbox with the given key, `none` when no
queue has the key (the mailbox is absent). -/
def Kernel.mailbox (K : Kernel) (key : Int) : Option (List Msg) :=
  match findKey K.slots key with
  | none => none
  | some i => (K.slots.getD i none).map MsgQueue.msgs

/-- A call of the program on the mailbox of one path; `cleanq` stands for
`cleanq(getqk(path))`, the cleanup of `main` (line 145). -/
inductive Call where
  | getqk_uniq
  | getqk
  | getqk_exists
  | sq_queue (message : Option (List Nat)) (buf0 : msgbuf)
  | sq_get (clean : Int) (buf0 : msgbuf)
  | sq_get_t (clean sec : Int) (buf0 : msgbuf)
  | cleanq

/-- The result of a call on the queue table and the table after it. -/
def Call.exec (path : List Nat) : Call → Kernel → Option (Int × Kernel)
  | .getqk_uniq, K => some (Ipcq.getqk_uniq kernelSys path K)
  | .getqk, K => some (Ipcq.getqk kernelSys path K)
  | .getqk_exists, K => some (Ipcq.getqk_exists kernelSys path K)
  | .sq_queue message buf0, K => Ipcq.sq_queue kernelSys path message buf0 K
  | .sq_get clean buf0, K => Ipcq.sq_get kernelSys path clean buf0 K
  | .sq_get_t clean sec buf0, K => Ipcq.sq_get_t kernelSys path clean sec buf0 K
  | .cleanq, K => some (Ipcq.cleanq kernelSys (Ipcq.getqk kernelSys path K).1
      (Ipcq.getqk kernelSys path K).2)

/-- Whether the call includes a `cleanq`. -/
def Call.cleans : Call → Bool
  | .sq_get clean _ => decide (clean ≠ 0)
  | .sq_get_t clean _ _ => decide (clean ≠ 0)
  | .cleanq => true
  | _ => false

/-- A sequence of calls on one path: the calls made with their results, and
the table at the end.  A call that never returns ends the sequence. -/
def runCalls (path : List Nat) : List Call → Kernel → List (Call × Int) × Kernel
  | [], K => ([], K)
  | c :: cs, K =>
    match c.exec path K with
    | none => ([], K)
    | some (r, K') => ((c, r) :: (runCalls path cs K').1, (runCalls path cs K').2)

/-- A call of `getqk_uniq` that succeeded. -/
def uniqSucceeded : Call × Int → Bool
  | (.getqk_uniq, r) => decide (0 ≤ r)
  | _ => false

/-- Slot `i` holds a queue with the given key. -/
def Kernel.holds (K : Kernel) (i : Nat) (key : Int) : Prop :=
  ∃ q, K.slots.getD i none = some q ∧ q.key = key

/-- A step that keeps the files and the number of queues of every key. -/
def Kernel.sameKeys (K K' : Kernel) : Prop :=
  K'.stat = K.stat ∧ ∀ key, keyCount K'.slots key = keyCount K.slots key

/-- The number of queues that have the key of the path. -/
def Kernel.count (K : Kernel) (path : List Nat) : Nat :=
  keyCount K.slots (getk kernelSys path K)

/-- The calls of `k` iterations of the poll loop that find no message: a
non-blocking receive and a sleep of one poll interval, `k` times. -/
def polls (q : Int) : Nat → List Event
  | 0 => []
  | k + 1 => Event.msgrcv q MSIZE 0 IPC_NOWAIT :: Event.usleep POLL_INTERVAL_USEC :: polls q k

/-- The output of `printf("%s\n", M)` as an event, none for the empty string
(the program prints no line for an empty text). -/
def lineOut (M : List Nat) : List Event :=
  if M = [] then [] else [Event.stdout (M ++ [10])]

/-- The call `cleanq(q)` as an event when cleanup is requested. -/
def cleanup (clean : Int) (q : Int) : List Event :=
  if clean ≠ 0 then [Event.rmid q] else []

/-- The value returned after the cleanup step: -1 when cleanup is requested
and `msgctl` fails, `retval` otherwise. -/
def afterCleanup (clean : Int) (rmid : Except Nat Unit) (retval : Int) : Int :=
  if clean ≠ 0 then (if status_ret rmid = -1 then -1 else retval) else retval

/-- The chars of a string literal. -/
def chars (s : String) : List Nat := s.toList.map Char.toNat

/-! ## Concrete runs -/

/-- A stack buffer with arbitrary content. -/
def stackBuf : msgbuf := { mtype := 0, mtext := List.replicate MSIZE 170 }

/-- A mailbox that stays empty: every receive attempt answers `ENOMSG`. -/
def emptyScript : Script :=
  { key := fun _ => 7, get := .ok 3, snd := none,
    rcv := fun _ => some (.error ENOMSG), rmid := .ok () }

/-- A mailbox in which `msg` arrives after `k` receive attempts, and whose
removal answers `rmid`. -/
def arrivalScript (k : Nat) (msg : List Nat) (rmid : Except Nat Unit) : Script :=
  { key := fun _ => 7, get := .ok 3, snd := none,
    rcv := fun n => if n < k then some (.error ENOMSG) else some (.ok (1, msg)),
    rmid := rmid }

/-- A kernel without queues, in which the file `/tmp/q1` exists. -/
def bootKernel : Kernel :=
  { stat := fun p => if p = chars "/tmp/q1" then some (2049, 1234) else none,
    slots := [], out := [], clock := 0, usages := [] }

/-- A mailbox that cannot be opened: `msgget` answers `EACCES` (13). -/
def closedScript : Script :=
  { key := fun _ => 7, get := .error 13, snd := none,
    rcv := fun _ => none, rmid := .error EINVAL }

/-- A mailbox that is removed by another process after `k` receive attempts:
the next attempt answers `EIDRM`. -/
def removedScript (k : Nat) : Script :=
  { key := fun _ => 7, get := .ok 3, snd := none,
    rcv := fun n => if n < k then some (.error ENOMSG) else some (.error EIDRM),
    rmid := .error EINVAL }

end Ipcq

namespace Ipcq

/-! ## C strings -/

theorem cstring_append_zero (M rest : List Nat) (hM : ∀ c ∈ M, c ≠ 0) :
    cstring (M ++ 0 :: rest) = M := by
  induction M with
  | nil => simp [cstring]
  | cons c M ih =>
    have hc : c ≠ 0 := hM c (List.mem_cons_self _ _)
    have ih := ih (fun d hd => hM d (List.mem_cons_of_mem _ hd))
    simp only [cstring, List.cons_append] at ih ⊢
    rw [List.takeWhile_cons_of_pos (by simpa using hc), ih]

/-- The buffer of `sq_queue` for a message string `M`: its first
`min |M| 1023` chars and terminators up to the end of the array. -/
theorem sq_queue_buf_some (M rest : List Nat) (buf0 : msgbuf)
    (hM : ∀ c ∈ M, c ≠ 0) (hbuf : buf0.mtext.length = MSIZE) :
    (sq_queue_buf (some (M ++ 0 :: rest)) buf0).mtext
      = M.take 1023 ++ List.replicate (MSIZE - min M.length 1023) 0 := by
  obtain ⟨t, l⟩ := buf0
  simp only [MSIZE] at hbuf ⊢
  simp only [sq_queue_buf, strncpy, cstring_append_zero M rest hM, MSIZE]
  have hlen : (M.take 1023).length = min M.length 1023 := by simp [Nat.min_comm]
  have hd : ∃ x, l.drop 1023 = [x] := by
    have : (l.drop 1023).length = 1 := by simp [hbuf]
    match h : l.drop 1023, this with
    | [x], _ => exact ⟨x, rfl⟩
  obtain ⟨x, hx⟩ := hd
  simp only [Nat.add_one_sub_one, hx]
  have h1 : (List.take 1023 M ++ List.replicate (1023 - (List.take 1023 M).length) 0).length = 1023 := by
    simp
  rw [List.set_append_right _ _ (by omega)]
  rw [h1]
  simp only [Nat.sub_self, List.set_cons_zero]
  have h2 : 1024 - min M.length 1023 = (1023 - (List.take 1023 M).length) + 1 := by
    rw [hlen]; omega
  rw [h2, List.replicate_succ']
  simp

theorem strlen_sq_queue_buf (M rest : List Nat) (buf0 : msgbuf)
    (hM : ∀ c ∈ M, c ≠ 0) (hbuf : buf0.mtext.length = MSIZE) :
    strlen (sq_queue_buf (some (M ++ 0 :: rest)) buf0).mtext = min M.length 1023 := by
  rw [sq_queue_buf_some M rest buf0 hM hbuf]
  have h : MSIZE - min M.length 1023 = (1023 - min M.length 1023) + 1 := by
    simp only [MSIZE]; omega
  rw [h, List.replicate_succ, strlen,
    cstring_append_zero _ _ (fun c hc => hM c (List.mem_of_mem_take hc))]
  simp [Nat.min_comm]

theorem take_sq_queue_buf (M rest : List Nat) (buf0 : msgbuf)
    (hM : ∀ c ∈ M, c ≠ 0) (hbuf : buf0.mtext.length = MSIZE) :
    (sq_queue_buf (some (M ++ 0 :: rest)) buf0).mtext.take (min M.length 1023 + 1)
      = M.take 1023 ++ [0] := by
  rw [sq_queue_buf_some M rest buf0 hM hbuf]
  have h : MSIZE - min M.length 1023 = (1023 - min M.length 1023) + 1 := by
    simp only [MSIZE]; omega
  have hlen : (M.take 1023).length = min M.length 1023 := by simp [Nat.min_comm]
  rw [h, List.replicate_succ, List.take_append_eq_append_take, hlen]
  simp [List.take_of_length_le, hlen]

/-- C1: for every message string `M` (chars other than the terminator,
followed in memory by a terminator), `sq_queue` leaves in the buffer the first
`min |M| 1023` chars of `M` followed by terminators, and calls `msgsnd` once,
with type 1, length `min |M| 1023 + 1` (at most `MSIZE`) and, as the chars of
that length, the first 1023 chars of `M` and one terminator: `M` itself and
the terminator when `|M| ≤ 1023`. -/
theorem sq_queue_sends_truncated (sc : Script) (path M rest : List Nat) (buf0 : msgbuf)
    (log : List Event) (q : Nat) (r : Except Nat Unit)
    (hM : ∀ c ∈ M, c ≠ 0) (hbuf : buf0.mtext.length = MSIZE)
    (hget : sc.get = .ok q) (hsnd : sc.snd = some r) :
    (sq_queue_buf (some (M ++ 0 :: rest)) buf0).mtext
        = M.take 1023 ++ List.replicate (MSIZE - min M.length 1023) 0
    ∧ sq_queue (scripted sc) path (some (M ++ 0 :: rest)) buf0 log
        = some (status_ret r,
            log ++ [Event.msgget (sc.key path) (0o666 ||| IPC_CREAT),
              Event.msgsnd q 1 (M.take 1023 ++ [0]) (min M.length 1023 + 1) 0])
    ∧ (M.take 1023 ++ [0]).length = min M.length 1023 + 1
    ∧ min M.length 1023 + 1 ≤ MSIZE
    ∧ (M.length ≤ 1023 → M.take 1023 ++ [0] = M ++ [0]) := by
  refine ⟨sq_queue_buf_some M rest buf0 hM hbuf, ?_, ?_, ?_, ?_⟩
  · have h1 := strlen_sq_queue_buf M rest buf0 hM hbuf
    have h2 := take_sq_queue_buf M rest buf0 hM hbuf
    have h3 : (sq_queue_buf (some (M ++ 0 :: rest)) buf0).mtype = 1 := rfl
    simp only [sq_queue, getqk, scripted, hget, msgget_ret, hsnd, h1, h2, h3, getk]
    simp
  · simp [Nat.min_comm]
  · simp only [MSIZE]; omega
  · intro h
    rw [List.take_of_length_le h]

/-- Witness of C1: the message "ping". -/
theorem sq_queue_sends_truncated_witness :
    sq_queue (scripted (Script.mk (fun _ => 7) (.ok 3) (some (.ok ())) (fun _ => none) (.ok ())))
      (chars "/tmp/q1") (some (chars "ping" ++ 0 :: [])) ⟨0, List.replicate MSIZE 9⟩ []
      = some (0, [Event.msgget 7 (0o666 ||| IPC_CREAT),
          Event.msgsnd 3 1 (chars "ping" ++ [0]) 5 0]) :=
  (sq_queue_sends_truncated _ (chars "/tmp/q1") (chars "ping") [] ⟨0, List.replicate MSIZE 9⟩ [] 3
    (.ok ()) (by decide) (by simp) rfl rfl).2.1

/-! ## The poll loop against a script -/

@[simp]
theorem scripted_ftok (sc : Script) (path : List Nat) (p : Nat) (log : List Event) :
    (scripted sc).ftok path p log = sc.key path := rfl

@[simp]
theorem scripted_msgget (sc : Script) (key : Int) (flg : Nat) (log : List Event) :
    (scripted sc).msgget key flg log = (sc.get, log ++ [Event.msgget key flg]) := rfl

@[simp]
theorem scripted_msgsnd (sc : Script) (q : Int) (buf : msgbuf) (sz flg : Nat)
    (log : List Event) :
    (scripted sc).msgsnd q buf sz flg log
      = sc.snd.map (fun r => (r, log ++ [Event.msgsnd q buf.mtype (buf.mtext.take sz) sz flg])) :=
  rfl

@[simp]
theorem scripted_msgrcv (sc : Script) (q : Int) (sz : Nat) (typ : Int) (flg : Nat)
    (log : List Event) :
    (scripted sc).msgrcv q sz typ flg log
      = (sc.rcvAnswer (log.countP Event.isRcv) sz).map
          (fun r => (r, log ++ [Event.msgrcv q sz typ flg])) := rfl

@[simp]
theorem scripted_rmid (sc : Script) (q : Int) (log : List Event) :
    (scripted sc).msgctl_rmid q log = (sc.rmid, log ++ [Event.rmid q]) := rfl

@[simp]
theorem scripted_usleep (sc : Script) (usec : Nat) (log : List Event) :
    (scripted sc).usleep usec log = log ++ [Event.usleep usec] := rfl

@[simp]
theorem scripted_stdout (sc : Script) (cs : List Nat) (log : List Event) :
    (scripted sc).stdout cs log = log ++ [Event.stdout cs] := rfl

@[simp]
theorem scripted_usage (sc : Script) (out : Bool) (f : List Nat) (log : List Event) :
    (scripted sc).usage out f log = log ++ [Event.usage out] := rfl

theorem countP_isRcv_polls (q : Int) (k : Nat) : (polls q k).countP Event.isRcv = k := by
  induction k with
  | zero => rfl
  | succ k ih => simp [polls, Event.isRcv, ih]

theorem countP_isSleep_polls (q : Int) (k : Nat) : (polls q k).countP Event.isSleep = k := by
  induction k with
  | zero => rfl
  | succ k ih => simp [polls, Event.isSleep, ih]

theorem countP_isRmid_polls (q : Int) (k : Nat) : (polls q k).countP Event.isRmid = 0 := by
  induction k with
  | zero => rfl
  | succ k ih => simp [polls, Event.isRmid, ih]

theorem countP_isStdout_polls (q : Int) (k : Nat) : (polls q k).countP Event.isStdout = 0 := by
  induction k with
  | zero => rfl
  | succ k ih => simp [polls, Event.isStdout, ih]

/-- While the receive attempts answer `ENOMSG`, the loop goes on: `k` such
attempts take `k` iterations and log `polls q k`. -/
theorem sq_get_t_loop_skip (sc : Script) (q : Int) (k : Nat) :
    ∀ (n : Nat) (retval : Int) (buf : msgbuf) (log : List Event),
      (∀ j, j < k → sc.rcv (log.countP Event.isRcv + j) = some (.error ENOMSG)) →
      sq_get_t_loop (scripted sc) q (k + n) retval buf log
        = sq_get_t_loop (scripted sc) q n retval buf (log ++ polls q k) := by
  induction k with
  | zero => intro n retval buf log _; simp [polls]
  | succ k ih =>
    intro n retval buf log h
    have h0 : sc.rcv (log.countP Event.isRcv) = some (.error ENOMSG) := by
      simpa using h 0 (Nat.succ_pos k)
    have hstep : sq_get_t_loop (scripted sc) q (k + n + 1) retval buf log
        = sq_get_t_loop (scripted sc) q (k + n) retval buf
            (log ++ [Event.msgrcv q MSIZE 0 IPC_NOWAIT, Event.usleep POLL_INTERVAL_USEC]) := by
      simp [sq_get_t_loop, Script.rcvAnswer, h0]
    have harr : k + 1 + n = k + n + 1 := by omega
    rw [harr, hstep, ih]
    · simp [polls]
    · intro j hj
      have := h (j + 1) (by omega)
      simpa [Event.isRcv, Event.isSleep, Nat.add_assoc, Nat.add_comm 1 j] using this

theorem int32_of_range (x : Int) (hlo : -2 ^ 31 ≤ x) (hhi : x < 2 ^ 31) : int32 x = x := by
  unfold int32
  norm_num at hlo hhi ⊢
  omega

/-- When `3 * sec` is representable as a 32-bit signed int, `total_attempts`
is `3 * sec`. -/
theorem total_attempts_of_range (sec : Int) (hlo : -2 ^ 31 ≤ 3 * sec) (hhi : 3 * sec < 2 ^ 31) :
    total_attempts sec = 3 * sec := by
  have h : sec * (POLLS_PER_SECOND : Int) = 3 * sec := by
    simp [POLLS_PER_SECOND, mul_comm]
  unfold total_attempts
  rw [h]
  exact int32_of_range _ hlo hhi

theorem getD_set_zero (l : List Nat) : (l.set 0 0).getD 0 0 = 0 := by
  cases l <;> simp

theorem receive_getD (buf : msgbuf) (t : Int) (M : List Nat) (hM : ∀ c ∈ M, c ≠ 0) :
    (buf.receive t (M ++ [0])).mtext.getD 0 0 ≠ 0 ↔ M ≠ [] := by
  cases M with
  | nil => simp [msgbuf.receive]
  | cons c M => simpa [msgbuf.receive] using hM c (List.mem_cons_self _ _)

theorem receive_cstring (buf : msgbuf) (t : Int) (M : List Nat) (hM : ∀ c ∈ M, c ≠ 0) :
    cstring (buf.receive t (M ++ [0])).mtext = M := by
  have := cstring_append_zero M (buf.mtext.drop (M ++ [0]).length) hM
  simpa [msgbuf.receive] using this

/-- The run of `sq_get_t` against a script, in terms of its poll loop: after
the loop the line is written when the buffer holds a non-empty string, and the
queue is removed when cleanup is requested. -/
theorem sq_get_t_scripted (sc : Script) (path : List Nat) (clean sec : Int) (buf0 : msgbuf)
    (q : Nat) (hget : sc.get = .ok q) :
    sq_get_t (scripted sc) path clean sec buf0 []
      = match sq_get_t_loop (scripted sc) q (total_attempts sec).toNat (-1)
            { buf0 with mtext := buf0.mtext.set 0 0 }
            [Event.msgget (sc.key path) (0o666 ||| IPC_CREAT)] with
        | none => none
        | some (.error r, log) => some (r, log)
        | some (.ok (retval, buf), log) =>
          some (if clean ≠ 0 then (if status_ret sc.rmid = -1 then -1 else retval) else retval,
            log ++ (if buf.mtext.getD 0 0 ≠ 0 then [Event.stdout (cstring buf.mtext ++ [10])] else [])
              ++ (if clean ≠ 0 then [Event.rmid q] else [])) := by
  have hq : ¬ ((q : Int) < 0) := by omega
  simp only [sq_get_t, getqk, getk, scripted_ftok, scripted_msgget, hget, msgget_ret,
    List.nil_append, hq, if_false]
  generalize sq_get_t_loop (scripted sc) q (total_attempts sec).toNat (-1)
    { buf0 with mtext := buf0.mtext.set 0 0 }
    [Event.msgget (sc.key path) (0o666 ||| IPC_CREAT)] = res
  match res with
  | none => rfl
  | some (.error r, log) => rfl
  | some (.ok (retval, buf), log) =>
    simp only [cleanq, printf_line, scripted_rmid, scripted_stdout]
    split_ifs <;> simp

theorem sq_get_t_open_fails (sc : Script) (path : List Nat) (clean sec : Int) (buf0 : msgbuf)
    (e : Nat) (hget : sc.get = .error e) :
    sq_get_t (scripted sc) path clean sec buf0 []
      = some (-1, [Event.msgget (sc.key path) (0o666 ||| IPC_CREAT)]) := by
  simp [sq_get_t, getqk, getk, hget, msgget_ret]

/-- A run of `sq_get_t` in which the first `k` attempts find no message and
all attempts are used up. -/
theorem sq_get_t_run_timeout (sc : Script) (path : List Nat) (clean sec : Int) (buf0 : msgbuf)
    (q : Nat) (hget : sc.get = .ok q)
    (hempty : ∀ j, j < (total_attempts sec).toNat → sc.rcv j = some (.error ENOMSG)) :
    sq_get_t (scripted sc) path clean sec buf0 []
      = some (-1, Event.msgget (sc.key path) (0o666 ||| IPC_CREAT)
          :: polls q (total_attempts sec).toNat ++ cleanup clean q) := by
  rw [sq_get_t_scripted sc path clean sec buf0 q hget]
  have h := sq_get_t_loop_skip sc q (total_attempts sec).toNat 0 (-1)
    { buf0 with mtext := buf0.mtext.set 0 0 }
    [Event.msgget (sc.key path) (0o666 ||| IPC_CREAT)]
    (by
      intro j hj
      simpa [Event.isRcv] using hempty j hj)
  rw [Nat.add_zero] at h
  rw [h]
  simp only [sq_get_t_loop, getD_set_zero, cleanup, afterCleanup]
  split_ifs <;> simp_all

/-- A run of `sq_get_t` in which the first `k` attempts find no message and
the next one finds the message `M` with its terminator. -/
theorem sq_get_t_run_message (sc : Script) (path : List Nat) (clean sec : Int) (buf0 : msgbuf)
    (q k : Nat) (t : Int) (M : List Nat) (hget : sc.get = .ok q)
    (hk : k < (total_attempts sec).toNat)
    (hempty : ∀ j, j < k → sc.rcv j = some (.error ENOMSG))
    (hmsg : sc.rcv k = some (.ok (t, M ++ [0])))
    (hM : ∀ c ∈ M, c ≠ 0) (hlen : M.length < MSIZE) :
    sq_get_t (scripted sc) path clean sec buf0 []
      = some (afterCleanup clean sc.rmid 0,
          Event.msgget (sc.key path) (0o666 ||| IPC_CREAT) :: polls q k
            ++ [Event.msgrcv q MSIZE 0 IPC_NOWAIT] ++ lineOut M ++ cleanup clean q) := by
  rw [sq_get_t_scripted sc path clean sec buf0 q hget]
  obtain ⟨n, hn⟩ : ∃ n, (total_attempts sec).toNat = k + (n + 1) :=
    ⟨(total_attempts sec).toNat - k - 1, by omega⟩
  have h := sq_get_t_loop_skip sc q k (n + 1) (-1)
    { buf0 with mtext := buf0.mtext.set 0 0 }
    [Event.msgget (sc.key path) (0o666 ||| IPC_CREAT)]
    (by intro j hj; simpa [Event.isRcv] using hempty j hj)
  rw [hn, h]
  have hsz : ¬ (MSIZE < M.length + 1) := by omega
  simp only [sq_get_t_loop, scripted_msgrcv, List.countP_append, List.countP_cons,
    List.countP_nil, countP_isRcv_polls, Event.isRcv, Script.rcvAnswer, hmsg,
    List.length_append, List.length_singleton, hsz, Option.map_some', if_false,
    Bool.false_eq_true, Nat.zero_add, receive_cstring _ _ _ hM, lineOut, cleanup, afterCleanup]
  have hd := receive_getD { buf0 with mtext := buf0.mtext.set 0 0 } t M hM
  by_cases hMe : M = []
  · rw [if_neg (fun h => (hd.mp h) hMe), if_pos hMe]
    simp
  · rw [if_pos (hd.mpr hMe), if_neg hMe]
    simp

/-- A run of `sq_get_t` in which the first `k` attempts find no message and
the next one fails with an error other than `ENOMSG`. -/
theorem sq_get_t_run_fault (sc : Script) (path : List Nat) (clean sec : Int) (buf0 : msgbuf)
    (q k e : Nat) (hget : sc.get = .ok q)
    (hk : k < (total_attempts sec).toNat)
    (hempty : ∀ j, j < k → sc.rcv j = some (.error ENOMSG))
    (hfault : sc.rcv k = some (.error e)) (he : e ≠ ENOMSG) :
    sq_get_t (scripted sc) path clean sec buf0 []
      = some (-1, Event.msgget (sc.key path) (0o666 ||| IPC_CREAT) :: polls q k
          ++ [Event.msgrcv q MSIZE 0 IPC_NOWAIT]) := by
  rw [sq_get_t_scripted sc path clean sec buf0 q hget]
  obtain ⟨n, hn⟩ : ∃ n, (total_attempts sec).toNat = k + (n + 1) :=
    ⟨(total_attempts sec).toNat - k - 1, by omega⟩
  have h := sq_get_t_loop_skip sc q k (n + 1) (-1)
    { buf0 with mtext := buf0.mtext.set 0 0 }
    [Event.msgget (sc.key path) (0o666 ||| IPC_CREAT)]
    (by intro j hj; simpa [Event.isRcv] using hempty j hj)
  rw [hn, h]
  simp [sq_get_t_loop, countP_isRcv_polls, Event.isRcv, Script.rcvAnswer, hfault, he]

/-! ## The blocking receive against a script -/

theorem sq_get_open_fails (sc : Script) (path : List Nat) (clean : Int) (buf0 : msgbuf)
    (e : Nat) (hget : sc.get = .error e) :
    sq_get (scripted sc) path clean buf0 []
      = some (-1, [Event.msgget (sc.key path) (0o666 ||| IPC_CREAT)]) := by
  simp [sq_get, getqk, getk, hget, msgget_ret]

theorem sq_get_run_fault (sc : Script) (path : List Nat) (clean : Int) (buf0 : msgbuf)
    (q e : Nat) (hget : sc.get = .ok q) (hfault : sc.rcv 0 = some (.error e)) :
    sq_get (scripted sc) path clean buf0 []
      = some (-1, [Event.msgget (sc.key path) (0o666 ||| IPC_CREAT),
          Event.msgrcv q MSIZE 0 0]) := by
  have hq : ¬ ((q : Int) < 0) := by omega
  simp [sq_get, getqk, getk, hget, msgget_ret, hq, Event.isRcv, Script.rcvAnswer, hfault]

theorem sq_get_run_message (sc : Script) (path : List Nat) (clean : Int) (buf0 : msgbuf)
    (q : Nat) (t : Int) (M : List Nat) (hget : sc.get = .ok q)
    (hmsg : sc.rcv 0 = some (.ok (t, M ++ [0])))
    (hM : ∀ c ∈ M, c ≠ 0) (hlen : M.length < MSIZE) :
    sq_get (scripted sc) path clean buf0 []
      = some (afterCleanup clean sc.rmid 0,
          [Event.msgget (sc.key path) (0o666 ||| IPC_CREAT), Event.msgrcv q MSIZE 0 0]
            ++ lineOut M ++ cleanup clean q) := by
  have hq : ¬ ((q : Int) < 0) := by omega
  have hsz : ¬ (MSIZE < M.length + 1) := by omega
  have hd := receive_getD { buf0 with mtext := buf0.mtext.set 0 0 } t M hM
  simp only [sq_get, getqk, getk, scripted_ftok, scripted_msgget, hget, msgget_ret,
    List.nil_append, hq, if_false, scripted_msgrcv, List.countP_cons, List.countP_nil,
    Event.isRcv, Script.rcvAnswer, hmsg, List.length_append, List.length_singleton, hsz,
    Option.map_some', Bool.false_eq_true, receive_cstring _ _ _ hM, lineOut, cleanup,
    afterCleanup, cleanq, printf_line, scripted_rmid, scripted_stdout]
  by_cases hMe : M = []
  · rw [if_neg (fun h => (hd.mp h) hMe), if_pos hMe]
    split_ifs <;> simp_all
  · rw [if_pos (hd.mpr hMe), if_neg hMe]
    split_ifs <;> simp_all

/-! ## Timed receive: the claims -/

/-- C3: for every `sec` with `3 * sec` representable as a 32-bit signed int,
`sq_get_t` on a mailbox that stays empty makes exactly `max 0 (3 * sec)`
non-blocking receive attempts, each followed by one sleep of
`POLL_INTERVAL_USEC = 333333` microseconds (the log is the open, then `polls`,
then the cleanup call if requested), and returns -1, the value for a timeout;
`sec ≤ 0` gives no attempt and no sleep, `sec = 2` gives 6 attempts. -/
theorem sq_get_t_timeout (sc : Script) (path : List Nat) (clean sec : Int) (buf0 : msgbuf)
    (q : Nat) (hget : sc.get = .ok q)
    (hempty : ∀ n, sc.rcv n = some (.error ENOMSG))
    (hlo : -2 ^ 31 ≤ 3 * sec) (hhi : 3 * sec < 2 ^ 31) :
    ∃ log,
      sq_get_t (scripted sc) path clean sec buf0 [] = some (-1, log)
      ∧ log = Event.msgget (sc.key path) (0o666 ||| IPC_CREAT)
          :: polls q (3 * sec).toNat ++ (if clean ≠ 0 then [Event.rmid q] else [])
      ∧ ((log.countP Event.isRcv : Nat) : Int) = max 0 (3 * sec)
      ∧ ((log.countP Event.isSleep : Nat) : Int) = max 0 (3 * sec)
      ∧ POLL_INTERVAL_USEC = 333333
      ∧ (sec ≤ 0 → log.countP Event.isRcv = 0 ∧ log.countP Event.isSleep = 0)
      ∧ (sec = 2 → log.countP Event.isRcv = 6 ∧ log.countP Event.isSleep = 6) := by
  have hrun := sq_get_t_run_timeout sc path clean sec buf0 q hget (fun j _ => hempty j)
  rw [total_attempts_of_range sec hlo hhi] at hrun
  refine ⟨_, hrun, rfl, ?_, ?_, rfl, ?_, ?_⟩
  · have : (List.countP Event.isRcv (cleanup clean q)) = 0 := by
      unfold cleanup; split_ifs <;> simp [Event.isRcv]
    simp only [List.countP_cons, List.countP_append, countP_isRcv_polls, this, Event.isRcv]
    simp only [Bool.false_eq_true, if_false, Nat.add_zero]
    omega
  · have : (List.countP Event.isSleep (cleanup clean q)) = 0 := by
      unfold cleanup; split_ifs <;> simp [Event.isSleep]
    simp only [List.countP_cons, List.countP_append, countP_isSleep_polls, this, Event.isSleep]
    simp only [Bool.false_eq_true, if_false, Nat.add_zero]
    omega
  · intro hs
    have h0 : (3 * sec).toNat = 0 := by omega
    rw [h0]
    simp only [cleanup, polls]
    split_ifs <;> simp [Event.isRcv, Event.isSleep]
  · intro hs
    subst hs
    have h6 : ((3 : Int) * 2).toNat = 6 := by decide
    rw [h6]
    simp only [cleanup]
    split_ifs <;> simp [polls, Event.isRcv, Event.isSleep]

/-- Witness of C3: two seconds on an empty mailbox. -/
theorem sq_get_t_timeout_witness :
    ∃ log, sq_get_t (scripted emptyScript) (chars "/tmp/q1") 0 2 stackBuf [] = some (-1, log)
      ∧ log.countP Event.isRcv = 6 :=
  match sq_get_t_timeout emptyScript (chars "/tmp/q1") 0 2 stackBuf 3 rfl (fun _ => rfl)
      (by norm_num) (by norm_num) with
  | ⟨log, h, _, _, _, _, _, h6⟩ => ⟨log, h, (h6 rfl).1⟩

/-- C4, the statement as given fails: with `sec = 1`, cleanup requested and a
message `"x"` found by the first attempt (`k = 0`), a failing `msgctl` makes
`sq_get_t` return -1, not success; the attempt was made and the line was
written. -/
theorem sq_get_t_message_not_success :
    (arrivalScript 0 (chars "x" ++ [0]) (.error EINVAL)).rcv 0
        = some (.ok (1, chars "x" ++ [0]))
    ∧ sq_get_t (scripted (arrivalScript 0 (chars "x" ++ [0]) (.error EINVAL)))
        (chars "/tmp/q1") 1 1 stackBuf []
      = some (-1, [Event.msgget 7 (0o666 ||| IPC_CREAT), Event.msgrcv 3 MSIZE 0 IPC_NOWAIT,
          Event.stdout (chars "x" ++ [10]), Event.rmid 3]) := by
  refine ⟨rfl, ?_⟩
  decide

/-- C4 as amended: for `sec > 0` and `0 ≤ k < 3 * sec`, if the first `k`
attempts answer `ENOMSG` and attempt `k + 1` is made (`k` is below the
`total_attempts` of line 280, which is `3 * sec` when that fits an int) and
finds the message `M`, then `sq_get_t` returns, whatever the cleanup flag and
the answer of `msgctl` are, after exactly `k + 1` attempts and `k` sleeps:
nothing but the output of `M` and the requested cleanup follows the successful
attempt, so fewer than `3 * sec` attempts are made whenever `k + 1 < 3 * sec`.
The value returned is success when cleanup is not requested or `msgctl`
succeeds. -/
theorem sq_get_t_message_midwait (sc : Script) (path : List Nat) (clean sec : Int)
    (buf0 : msgbuf) (q k : Nat) (t : Int) (M : List Nat) (hget : sc.get = .ok q)
    (_hsec : 0 < sec) (_hk : (k : Int) < 3 * sec) (hatt : (k : Int) < total_attempts sec)
    (hempty : ∀ j, j < k → sc.rcv j = some (.error ENOMSG))
    (hmsg : sc.rcv k = some (.ok (t, M ++ [0])))
    (hM : ∀ c ∈ M, c ≠ 0) (hlen : M.length < MSIZE) :
    ∃ r log,
      sq_get_t (scripted sc) path clean sec buf0 [] = some (r, log)
      ∧ log = Event.msgget (sc.key path) (0o666 ||| IPC_CREAT) :: polls q k
          ++ [Event.msgrcv q MSIZE 0 IPC_NOWAIT] ++ lineOut M
          ++ (if clean ≠ 0 then [Event.rmid q] else [])
      ∧ log.countP Event.isRcv = k + 1
      ∧ log.countP Event.isSleep = k
      ∧ ((k : Int) + 1 < 3 * sec → (log.countP Event.isRcv : Int) < 3 * sec)
      ∧ (clean = 0 ∨ sc.rmid = .ok () → r = 0) := by
  have hrun := sq_get_t_run_message sc path clean sec buf0 q k t M hget (by omega) hempty hmsg
    hM hlen
  have hret : clean = 0 ∨ sc.rmid = .ok () → afterCleanup clean sc.rmid 0 = 0 := by
    intro hclean
    rcases hclean with h | h
    · simp [afterCleanup, h]
    · simp [afterCleanup, h, status_ret]
  simp only [cleanup] at hrun
  have hcR : (List.countP Event.isRcv (if clean ≠ 0 then [Event.rmid (q : Int)] else [])) = 0 := by
    split_ifs <;> simp [Event.isRcv]
  have hcS : (List.countP Event.isSleep (if clean ≠ 0 then [Event.rmid (q : Int)] else [])) = 0 := by
    split_ifs <;> simp [Event.isSleep]
  have hlR : List.countP Event.isRcv (lineOut M) = 0 := by
    unfold lineOut; split_ifs <;> simp [Event.isRcv]
  have hlS : List.countP Event.isSleep (lineOut M) = 0 := by
    unfold lineOut; split_ifs <;> simp [Event.isSleep]
  have hR : (Event.msgget (sc.key path) (0o666 ||| IPC_CREAT) :: polls q k
          ++ [Event.msgrcv q MSIZE 0 IPC_NOWAIT] ++ lineOut M
          ++ (if clean ≠ 0 then [Event.rmid (q : Int)] else [])).countP Event.isRcv = k + 1 := by
    simp only [List.countP_cons, List.countP_append, countP_isRcv_polls, hcR, hlR,
      List.countP_nil, Event.isRcv]
    simp
  refine ⟨_, _, hrun, rfl, hR, ?_, ?_, hret⟩
  · simp only [List.countP_cons, List.countP_append, countP_isSleep_polls, hcS, hlS,
      List.countP_nil, Event.isSleep]
    simp
  · intro h
    rw [hR]
    exact_mod_cast h

/-- Witness of C4 as amended: the message "ping" arrives after two empty
attempts of a one-second wait, with cleanup requested and `msgctl`
succeeding. -/
theorem sq_get_t_message_midwait_witness :
    ∃ r log, sq_get_t (scripted (arrivalScript 2 (chars "ping" ++ [0]) (.ok ())))
        (chars "/tmp/q1") 1 1 stackBuf [] = some (r, log)
      ∧ log.countP Event.isRcv = 3 ∧ log.countP Event.isSleep = 2 ∧ r = 0 :=
  match sq_get_t_message_midwait (arrivalScript 2 (chars "ping" ++ [0]) (.ok ()))
      (chars "/tmp/q1") 1 1 stackBuf 3 2 1 (chars "ping") rfl (by decide) (by decide)
      (by decide) (fun _ hj => if_pos hj) rfl (by decide) (by decide) with
  | ⟨r, log, h, _, hr, hs, _, h0⟩ => ⟨r, log, h, hr, hs, h0 (Or.inr rfl)⟩

/-- C5: in `sq_get_t` the first receive attempt that fails with an error
other than `ENOMSG` (attempt `k + 1` of the `total_attempts`, the `k` attempts
before it having answered `ENOMSG`) ends the function with -1 at once: the
failed attempt is the last call made, so there is no further attempt, no sleep
after it, no output and no `msgctl`, whatever the attempts left and the
cleanup flag are. -/
theorem sq_get_t_fault_aborts (sc : Script) (path : List Nat) (clean sec : Int)
    (buf0 : msgbuf) (q k e : Nat) (hget : sc.get = .ok q)
    (hk : (k : Int) < total_attempts sec)
    (hempty : ∀ j, j < k → sc.rcv j = some (.error ENOMSG))
    (hfault : sc.rcv k = some (.error e)) (he : e ≠ ENOMSG) :
    ∃ log,
      sq_get_t (scripted sc) path clean sec buf0 [] = some (-1, log)
      ∧ log = Event.msgget (sc.key path) (0o666 ||| IPC_CREAT) :: polls q k
          ++ [Event.msgrcv q MSIZE 0 IPC_NOWAIT]
      ∧ log.countP Event.isRcv = k + 1
      ∧ log.countP Event.isSleep = k
      ∧ log.countP Event.isStdout = 0
      ∧ log.countP Event.isRmid = 0 := by
  refine ⟨_, sq_get_t_run_fault sc path clean sec buf0 q k e hget (by omega) hempty hfault he,
    rfl, ?_, ?_, ?_, ?_⟩
  · simp [List.countP_cons, List.countP_append, countP_isRcv_polls, Event.isRcv]
  · simp [List.countP_cons, List.countP_append, countP_isSleep_polls, Event.isSleep]
  · simp [List.countP_cons, List.countP_append, countP_isStdout_polls, Event.isStdout]
  · simp [List.countP_cons, List.countP_append, countP_isRmid_polls, Event.isRmid]

/-- Witness of C5: the mailbox is removed after one empty attempt. -/
theorem sq_get_t_fault_aborts_witness :
    ∃ log, sq_get_t (scripted (removedScript 1)) (chars "/tmp/q1") 1 2 stackBuf []
        = some (-1, log)
      ∧ log.countP Event.isRcv = 2 ∧ log.countP Event.isRmid = 0 :=
  match sq_get_t_fault_aborts (removedScript 1) (chars "/tmp/q1") 1 2 stackBuf 3 1 EIDRM rfl
      (by decide) (fun _ hj => if_pos hj) rfl (by decide) with
  | ⟨log, h, _, hr, _, _, hd⟩ => ⟨log, h, hr, hd⟩

/-- C6, the statement as given fails: a run that ends in a timeout (one second
on an empty mailbox), a run that ends in a receive fault (`EIDRM` at the first
attempt) and a run whose mailbox cannot be opened all return -1, and `main`
exits with `EXIT_FAILURE` for each of them. -/
theorem sq_get_t_timeout_equals_fault :
    (sq_get_t (scripted emptyScript) (chars "/tmp/q1") 0 1 stackBuf []).map Prod.fst
        = some (-1)
    ∧ (sq_get_t (scripted (removedScript 0)) (chars "/tmp/q1") 0 1 stackBuf []).map Prod.fst
        = some (-1)
    ∧ (sq_get_t (scripted closedScript) (chars "/tmp/q1") 0 1 stackBuf []).map Prod.fst
        = some (-1)
    ∧ (main (scripted emptyScript) [chars "ipcq", chars "-t", chars "1", chars "/tmp/q1"]
        stackBuf []).map Prod.fst = some EXIT_FAILURE
    ∧ (main (scripted (removedScript 0)) [chars "ipcq", chars "-t", chars "1", chars "/tmp/q1"]
        stackBuf []).map Prod.fst = some EXIT_FAILURE
    ∧ (main (scripted closedScript) [chars "ipcq", chars "-t", chars "1", chars "/tmp/q1"]
        stackBuf []).map Prod.fst = some EXIT_FAILURE := by
  refine ⟨?_, ?_, ?_, ?_, ?_, ?_⟩ <;> decide

/-- C6 as amended: `sq_get_t` returns the same value -1 when the mailbox
cannot be opened, when all `total_attempts` attempts are used up without a
message (timeout) and when a receive attempt fails with an error other than
`ENOMSG`. -/
theorem sq_get_t_failures_minus_one (sc : Script) (path : List Nat) (clean sec : Int)
    (buf0 : msgbuf) :
    (∀ e, sc.get = .error e →
      (sq_get_t (scripted sc) path clean sec buf0 []).map Prod.fst = some (-1))
    ∧ (∀ q : Nat, sc.get = .ok q →
        (∀ j : Nat, (j : Int) < total_attempts sec → sc.rcv j = some (.error ENOMSG)) →
        (sq_get_t (scripted sc) path clean sec buf0 []).map Prod.fst = some (-1))
    ∧ (∀ q k e : Nat, sc.get = .ok q → (k : Int) < total_attempts sec →
        (∀ j, j < k → sc.rcv j = some (.error ENOMSG)) →
        sc.rcv k = some (.error e) → e ≠ ENOMSG →
        (sq_get_t (scripted sc) path clean sec buf0 []).map Prod.fst = some (-1)) := by
  refine ⟨?_, ?_, ?_⟩
  · intro e he
    rw [sq_get_t_open_fails sc path clean sec buf0 e he]; rfl
  · intro q hget hempty
    rw [sq_get_t_run_timeout sc path clean sec buf0 q hget
      (fun j hj => hempty j (by omega))]; rfl
  · intro q k e hget hk hempty hfault he
    rw [sq_get_t_run_fault sc path clean sec buf0 q k e hget (by omega) hempty hfault he]; rfl

/-- Witness of C6 as amended: the three failures on concrete scripts. -/
theorem sq_get_t_failures_minus_one_witness :
    (sq_get_t (scripted closedScript) (chars "/tmp/q2") 1 3 stackBuf []).map Prod.fst
        = some (-1)
    ∧ (sq_get_t (scripted emptyScript) (chars "/tmp/q2") 1 3 stackBuf []).map Prod.fst
        = some (-1)
    ∧ (sq_get_t (scripted (removedScript 4)) (chars "/tmp/q2") 1 3 stackBuf []).map Prod.fst
        = some (-1) :=
  ⟨(sq_get_t_failures_minus_one closedScript (chars "/tmp/q2") 1 3 stackBuf).1 13 rfl,
   (sq_get_t_failures_minus_one emptyScript (chars "/tmp/q2") 1 3 stackBuf).2.1 3 rfl
     (fun _ _ => rfl),
   (sq_get_t_failures_minus_one (removedScript 4) (chars "/tmp/q2") 1 3 stackBuf).2.2 3 4 EIDRM
     rfl (by decide) (fun _ hj => if_pos hj) rfl (by decide)⟩

/-! ## The command line -/

theorem chars_dash_f : chars "-f" = [45, 102] := by decide

/-- C10, where the code departs from the claim: given a path and neither an
action nor `-c`, `main` returns `EXIT_SUCCESS` and makes no call at all (the
usage text is not written): the `return EXIT_SUCCESS` of the default branch is
not guarded by `if (clean)`, and the call of `help` after it is never
reached. -/
theorem main_path_only_succeeds (sys : Sys σ) (prog path : List Nat) (buf0 : msgbuf) (s : σ) :
    main sys [prog, chars "-f", path] buf0 s = some (EXIT_SUCCESS, s) := by
  simp [main, chars_dash_f, parse_args, charAt, ACTION_UNKNOWN, ACTION_GET, ACTION_QUEUE,
    ACTION_Q_EXISTS, ACTION_TIME, ACTION_UNIQ_Q]

/-! ## Cleanup and output -/

theorem sq_get_t_loop_rmid (sc : Script) (q : Int) :
    ∀ (n : Nat) (retval : Int) (buf : msgbuf) (log : List Event)
      (res : Except Int (Int × msgbuf)) (log' : List Event),
      sq_get_t_loop (scripted sc) q n retval buf log = some (res, log') →
      log'.countP Event.isRmid = log.countP Event.isRmid := by
  intro n
  induction n with
  | zero =>
    intro retval buf log res log' h
    simp only [sq_get_t_loop, Option.some.injEq, Prod.mk.injEq] at h
    rw [← h.2]
  | succ n ih =>
    intro retval buf log res log' h
    simp only [sq_get_t_loop, scripted_msgrcv, scripted_usleep] at h
    cases hr : sc.rcvAnswer (List.countP Event.isRcv log) MSIZE with
    | none => simp [hr] at h
    | some a =>
      cases a with
      | ok m =>
        simp only [hr, Option.map_some', Option.some.injEq, Prod.mk.injEq] at h
        rw [← h.2]; simp [Event.isRmid]
      | error e =>
        simp only [hr, Option.map_some'] at h
        by_cases he : e = ENOMSG
        · simp only [he, ne_eq, not_true_eq_false, if_false] at h
          rw [ih _ _ _ _ _ h]; simp [Event.isRmid]
        · simp only [ne_eq, he, not_false_eq_true, if_true, Option.some.injEq,
            Prod.mk.injEq] at h
          rw [← h.2]; simp [Event.isRmid]

/-- Without the cleanup flag `sq_get_t` never calls `msgctl`, whatever the
calls answer. -/
theorem sq_get_t_no_cleanup (sc : Script) (path : List Nat) (sec : Int) (buf0 : msgbuf)
    (r : Int) (log : List Event)
    (h : sq_get_t (scripted sc) path 0 sec buf0 [] = some (r, log)) :
    log.countP Event.isRmid = 0 := by
  cases hget : sc.get with
  | error e =>
    rw [sq_get_t_open_fails sc path 0 sec buf0 e hget] at h
    simp only [Option.some.injEq, Prod.mk.injEq] at h
    rw [← h.2]; simp [Event.isRmid]
  | ok q =>
    rw [sq_get_t_scripted sc path 0 sec buf0 q hget] at h
    cases hl : sq_get_t_loop (scripted sc) q (total_attempts sec).toNat (-1)
        { buf0 with mtext := buf0.mtext.set 0 0 }
        [Event.msgget (sc.key path) (0o666 ||| IPC_CREAT)] with
    | none => simp [hl] at h
    | some a =>
      obtain ⟨res, log1⟩ := a
      have hc : log1.countP Event.isRmid = 0 := by
        rw [sq_get_t_loop_rmid sc q _ _ _ _ _ _ hl]; rfl
      cases res with
      | error r1 =>
        simp only [hl, Option.some.injEq, Prod.mk.injEq] at h
        rw [← h.2, hc]
      | ok p =>
        obtain ⟨retval, buf⟩ := p
        simp only [hl, Option.some.injEq, Prod.mk.injEq] at h
        rw [← h.2]
        simp only [ne_eq, not_true_eq_false, if_false, List.append_nil, List.countP_append, hc]
        split_ifs <;> simp_all [Event.isRmid]

/-- Without the cleanup flag `sq_get` never calls `msgctl`, whatever the calls
answer. -/
theorem sq_get_no_cleanup (sc : Script) (path : List Nat) (buf0 : msgbuf)
    (r : Int) (log : List Event)
    (h : sq_get (scripted sc) path 0 buf0 [] = some (r, log)) :
    log.countP Event.isRmid = 0 := by
  cases hget : sc.get with
  | error e =>
    rw [sq_get_open_fails sc path 0 buf0 e hget] at h
    simp only [Option.some.injEq, Prod.mk.injEq] at h
    rw [← h.2]; simp [Event.isRmid]
  | ok q =>
    have hq : ¬ ((q : Int) < 0) := by omega
    simp only [sq_get, getqk, getk, scripted_ftok, scripted_msgget, hget, msgget_ret,
      List.nil_append, hq, if_false, scripted_msgrcv, List.countP_cons, List.countP_nil,
      Event.isRcv] at h
    cases hr : sc.rcvAnswer 0 MSIZE with
    | none => simp [hr] at h
    | some a =>
      cases a with
      | error e =>
        simp [hr] at h
        rw [← h.2]; simp [Event.isRmid]
      | ok m =>
        obtain ⟨t, bytes⟩ := m
        simp [hr, printf_line] at h
        rw [← h.2]
        split_ifs <;> simp [Event.isRmid]

theorem afterCleanup_error (clean : Int) (e : Nat) (r : Int) (hc : clean ≠ 0) :
    afterCleanup clean (.error e) r = -1 := by
  simp [afterCleanup, hc, status_ret]

theorem afterCleanup_ok (clean : Int) (r : Int) : afterCleanup clean (.ok ()) r = r := by
  simp [afterCleanup, status_ret]

theorem afterCleanup_zero (rmid : Except Nat Unit) (r : Int) : afterCleanup 0 rmid r = r := by
  simp [afterCleanup]

theorem cleanup_pos (clean q : Int) (hc : clean ≠ 0) : cleanup clean q = [Event.rmid q] := by
  simp [cleanup, hc]

theorem filter_isStdout_polls (q : Int) (k : Nat) : (polls q k).filter Event.isStdout = [] := by
  induction k with
  | zero => rfl
  | succ k ih => simp [polls, Event.isStdout, ih]

theorem filter_isStdout_lineOut (M : List Nat) :
    (lineOut M).filter Event.isStdout = lineOut M := by
  unfold lineOut; split_ifs <;> simp [Event.isStdout]

theorem filter_isStdout_cleanup (clean q : Int) :
    (cleanup clean q).filter Event.isStdout = [] := by
  unfold cleanup; split_ifs <;> simp [Event.isStdout]

/-- C7: with cleanup requested, `sq_get` after a successful receive and
`sq_get_t` after a successful receive or after a timeout call `msgctl` on the
mailbox exactly once, as the last call, after the line of the received message
is written; when that call fails the function returns -1 although the line
was written, when it succeeds the function returns the receive outcome (0 for
a received message, -1 for the timeout).  Without the cleanup flag `msgctl` is
never called, whatever the calls answer. -/
theorem cleanup_once_after_output (sc : Script) (path : List Nat) (clean sec : Int)
    (buf0 : msgbuf) (q k : Nat) (t : Int) (M : List Nat) :
    (clean ≠ 0 → sc.get = .ok q → (∀ c ∈ M, c ≠ 0) → M.length < MSIZE →
      (sc.rcv 0 = some (.ok (t, M ++ [0])) →
        (∀ e, sc.rmid = .error e →
          sq_get (scripted sc) path clean buf0 []
            = some (-1, [Event.msgget (sc.key path) (0o666 ||| IPC_CREAT),
                Event.msgrcv q MSIZE 0 0] ++ lineOut M ++ [Event.rmid q]))
        ∧ (sc.rmid = .ok () →
          sq_get (scripted sc) path clean buf0 []
            = some (0, [Event.msgget (sc.key path) (0o666 ||| IPC_CREAT),
                Event.msgrcv q MSIZE 0 0] ++ lineOut M ++ [Event.rmid q])))
      ∧ ((k : Int) < total_attempts sec →
          (∀ j, j < k → sc.rcv j = some (.error ENOMSG)) →
          sc.rcv k = some (.ok (t, M ++ [0])) →
        (∀ e, sc.rmid = .error e →
          sq_get_t (scripted sc) path clean sec buf0 []
            = some (-1, Event.msgget (sc.key path) (0o666 ||| IPC_CREAT) :: polls q k
                ++ [Event.msgrcv q MSIZE 0 IPC_NOWAIT] ++ lineOut M ++ [Event.rmid q]))
        ∧ (sc.rmid = .ok () →
          sq_get_t (scripted sc) path clean sec buf0 []
            = some (0, Event.msgget (sc.key path) (0o666 ||| IPC_CREAT) :: polls q k
                ++ [Event.msgrcv q MSIZE 0 IPC_NOWAIT] ++ lineOut M ++ [Event.rmid q])))
      ∧ ((∀ j : Nat, (j : Int) < total_attempts sec → sc.rcv j = some (.error ENOMSG)) →
          sq_get_t (scripted sc) path clean sec buf0 []
            = some (-1, Event.msgget (sc.key path) (0o666 ||| IPC_CREAT)
                :: polls q (total_attempts sec).toNat ++ [Event.rmid q])))
    ∧ (clean = 0 → ∀ r log,
        (sq_get (scripted sc) path clean buf0 [] = some (r, log)
          ∨ sq_get_t (scripted sc) path clean sec buf0 [] = some (r, log)) →
        log.countP Event.isRmid = 0) := by
  refine ⟨?_, ?_⟩
  · intro hc hget hM hlen
    refine ⟨?_, ?_, ?_⟩
    · intro hmsg
      have h := sq_get_run_message sc path clean buf0 q t M hget hmsg hM hlen
      rw [cleanup_pos clean q hc] at h
      refine ⟨?_, ?_⟩
      · intro e he
        rw [h, he, afterCleanup_error clean e 0 hc]
      · intro hok
        rw [h, hok, afterCleanup_ok]
    · intro hk hempty hmsg
      have h := sq_get_t_run_message sc path clean sec buf0 q k t M hget (by omega) hempty hmsg
        hM hlen
      rw [cleanup_pos clean q hc] at h
      refine ⟨?_, ?_⟩
      · intro e he
        rw [h, he, afterCleanup_error clean e 0 hc]
      · intro hok
        rw [h, hok, afterCleanup_ok]
    · intro hempty
      have h := sq_get_t_run_timeout sc path clean sec buf0 q hget
        (fun j hj => hempty j (by omega))
      rw [cleanup_pos clean q hc] at h
      exact h
  · intro hc r log h
    subst hc
    rcases h with h | h
    · exact sq_get_no_cleanup sc path buf0 r log h
    · exact sq_get_t_no_cleanup sc path sec buf0 r log h

/-- Witness of C7: the message "ping" is received at once and the removal of
the queue fails; the line is written, then `msgctl` is called, and the result
is -1. -/
theorem cleanup_once_after_output_witness :
    sq_get (scripted (arrivalScript 0 (chars "ping" ++ [0]) (.error EINVAL)))
        (chars "/tmp/q1") 1 stackBuf []
      = some (-1, [Event.msgget 7 (0o666 ||| IPC_CREAT), Event.msgrcv 3 MSIZE 0 0]
          ++ lineOut (chars "ping") ++ [Event.rmid 3]) :=
  (((cleanup_once_after_output (arrivalScript 0 (chars "ping" ++ [0]) (.error EINVAL))
    (chars "/tmp/q1") 1 1 stackBuf 3 0 1 (chars "ping")).1 (by decide) rfl (by decide)
    (by decide)).1 rfl).1 EINVAL rfl

/-- C9, the statement as given fails, in two ways.  When `sq_get` receives an
empty payload with cleanup requested and `msgctl` fails, nothing is written
and the result is -1, not success.  With `sec = -1000000000`, for which
`sec * 3` does not fit a 32-bit signed int and wraps to a positive
`total_attempts`, `sq_get_t` does attempt a receive, although `sec ≤ 0`, and
writes the line of the message it finds. -/
theorem sq_get_empty_payload_not_success :
    sq_get (scripted (arrivalScript 0 [0] (.error EINVAL))) (chars "/tmp/q1") 1 stackBuf []
      = some (-1, [Event.msgget 7 (0o666 ||| IPC_CREAT), Event.msgrcv 3 MSIZE 0 0,
          Event.rmid 3])
    ∧ total_attempts (-1000000000) = 1294967296
    ∧ sq_get_t (scripted (arrivalScript 0 (chars "x" ++ [0]) (.ok ())))
        (chars "/tmp/q1") 0 (-1000000000) stackBuf []
      = some (0, [Event.msgget 7 (0o666 ||| IPC_CREAT), Event.msgrcv 3 MSIZE 0 IPC_NOWAIT,
          Event.stdout (chars "x" ++ [10])]) := by
  refine ⟨?_, ?_, ?_⟩ <;> decide

/-- C9 as amended: `sq_get` and `sq_get_t` write a line exactly when a message
is received and its payload `M` is not empty, and the line is `M`: for a
received message the output is `lineOut M` (nothing for the empty payload, and
then the result is still 0 unless a requested cleanup fails); a failed open, a
failed receive and a timeout of `sq_get_t` (zero attempts for `sec ≤ 0`
included) write nothing. -/
theorem output_iff_payload (sc : Script) (path : List Nat) (clean sec : Int)
    (buf0 : msgbuf) (q k : Nat) (t : Int) (M : List Nat) :
    (sc.get = .ok q → (∀ c ∈ M, c ≠ 0) → M.length < MSIZE →
      (sc.rcv 0 = some (.ok (t, M ++ [0])) →
        ∃ r log, sq_get (scripted sc) path clean buf0 [] = some (r, log)
          ∧ log.filter Event.isStdout = lineOut M
          ∧ (clean = 0 ∨ sc.rmid = .ok () → r = 0))
      ∧ ((k : Int) < total_attempts sec →
          (∀ j, j < k → sc.rcv j = some (.error ENOMSG)) →
          sc.rcv k = some (.ok (t, M ++ [0])) →
        ∃ r log, sq_get_t (scripted sc) path clean sec buf0 [] = some (r, log)
          ∧ log.filter Event.isStdout = lineOut M
          ∧ (clean = 0 ∨ sc.rmid = .ok () → r = 0)))
    ∧ (sc.get = .ok q →
      (∀ e, sc.rcv 0 = some (.error e) →
        ∃ log, sq_get (scripted sc) path clean buf0 [] = some (-1, log)
          ∧ log.filter Event.isStdout = [])
      ∧ (∀ e, (k : Int) < total_attempts sec →
          (∀ j, j < k → sc.rcv j = some (.error ENOMSG)) →
          sc.rcv k = some (.error e) → e ≠ ENOMSG →
        ∃ log, sq_get_t (scripted sc) path clean sec buf0 [] = some (-1, log)
          ∧ log.filter Event.isStdout = [])
      ∧ ((∀ j : Nat, (j : Int) < total_attempts sec → sc.rcv j = some (.error ENOMSG)) →
        ∃ log, sq_get_t (scripted sc) path clean sec buf0 [] = some (-1, log)
          ∧ log.filter Event.isStdout = []
          ∧ (sec ≤ 0 → -2 ^ 31 ≤ 3 * sec → log.countP Event.isRcv = 0)))
    ∧ (∀ e, sc.get = .error e →
        (∃ log, sq_get (scripted sc) path clean buf0 [] = some (-1, log)
          ∧ log.filter Event.isStdout = [])
        ∧ ∃ log, sq_get_t (scripted sc) path clean sec buf0 [] = some (-1, log)
          ∧ log.filter Event.isStdout = [])
    ∧ lineOut [] = []
    ∧ (M ≠ [] → lineOut M = [Event.stdout (M ++ [10])]) := by
  have hret : (clean = 0 ∨ sc.rmid = .ok ()) → afterCleanup clean sc.rmid 0 = 0 := by
    intro h
    rcases h with h | h
    · rw [h, afterCleanup_zero]
    · rw [h, afterCleanup_ok]
  refine ⟨?_, ?_, ?_, rfl, ?_⟩
  · intro hget hM hlen
    refine ⟨?_, ?_⟩
    · intro hmsg
      refine ⟨_, _, sq_get_run_message sc path clean buf0 q t M hget hmsg hM hlen, ?_, hret⟩
      simp [List.filter_append, filter_isStdout_lineOut, filter_isStdout_cleanup,
        Event.isStdout]
    · intro hk hempty hmsg
      refine ⟨_, _,
        sq_get_t_run_message sc path clean sec buf0 q k t M hget (by omega) hempty hmsg hM
          hlen,
        ?_, hret⟩
      simp [List.filter_append, filter_isStdout_lineOut, filter_isStdout_cleanup,
        filter_isStdout_polls, Event.isStdout]
  · intro hget
    refine ⟨?_, ?_, ?_⟩
    · intro e hfault
      exact ⟨_, sq_get_run_fault sc path clean buf0 q e hget hfault, by simp [Event.isStdout]⟩
    · intro e hk hempty hfault he
      refine ⟨_,
        sq_get_t_run_fault sc path clean sec buf0 q k e hget (by omega) hempty hfault he, ?_⟩
      simp [List.filter_append, filter_isStdout_polls, Event.isStdout]
    · intro hempty
      refine ⟨_, sq_get_t_run_timeout sc path clean sec buf0 q hget
        (fun j hj => hempty j (by omega)), ?_, ?_⟩
      · simp [List.filter_append, filter_isStdout_polls, filter_isStdout_cleanup,
          Event.isStdout]
      · intro hs hlo
        have h0 : (total_attempts sec).toNat = 0 := by
          rw [total_attempts_of_range sec hlo (by omega)]; omega
        rw [h0]
        unfold cleanup polls
        split_ifs <;> simp [Event.isRcv]
  · intro e hget
    exact ⟨⟨_, sq_get_open_fails sc path clean buf0 e hget, by simp [Event.isStdout]⟩,
      ⟨_, sq_get_t_open_fails sc path clean sec buf0 e hget, by simp [Event.isStdout]⟩⟩
  · intro hM
    simp [lineOut, hM]

/-- Witness of C9 as amended: an empty payload is received by `sq_get` without
cleanup; nothing is written and the result is 0. -/
theorem output_iff_payload_witness :
    ∃ r log, sq_get (scripted (arrivalScript 0 [0] (.ok ()))) (chars "/tmp/q1") 0 stackBuf []
        = some (r, log)
      ∧ log.filter Event.isStdout = [] ∧ r = 0 :=
  match ((output_iff_payload (arrivalScript 0 [0] (.ok ())) (chars "/tmp/q1") 0 1 stackBuf
      3 0 1 []).1 rfl (by decide) (by decide)).1 rfl with
  | ⟨r, log, h, ho, hr⟩ => ⟨r, log, h, ho, hr (Or.inl rfl)⟩

/-! ## The queue table -/

@[simp]
theorem kernel_ftok (path : List Nat) (p : Nat) (K : Kernel) :
    kernelSys.ftok path p K = K.ftok path p := rfl

@[simp]
theorem kernel_msgget (key : Int) (flg : Nat) (K : Kernel) :
    kernelSys.msgget key flg K = K.msgget key flg := rfl

@[simp]
theorem kernel_msgsnd (q : Int) (buf : msgbuf) (sz flg : Nat) (K : Kernel) :
    kernelSys.msgsnd q buf sz flg K = K.msgsnd q buf sz flg := rfl

@[simp]
theorem kernel_msgrcv (q : Int) (sz : Nat) (typ : Int) (flg : Nat) (K : Kernel) :
    kernelSys.msgrcv q sz typ flg K = K.msgrcv q sz typ flg := rfl

@[simp]
theorem kernel_rmid (q : Int) (K : Kernel) :
    kernelSys.msgctl_rmid q K = K.msgctl_rmid q := rfl

@[simp]
theorem kernel_usleep (usec : Nat) (K : Kernel) :
    kernelSys.usleep usec K = { K with clock := K.clock + usec } := rfl

@[simp]
theorem kernel_stdout (cs : List Nat) (K : Kernel) :
    kernelSys.stdout cs K = { K with out := K.out ++ cs } := rfl

theorem findKey_eq_none_iff (slots : List (Option MsgQueue)) (key : Int) :
    findKey slots key = none ↔ keyCount slots key = 0 := by
  induction slots with
  | nil => simp [findKey, keyCount]
  | cons s rest ih =>
    cases s with
    | none => simp [findKey, keyCount, ih]
    | some q =>
      by_cases h : q.key = key
      · simp [findKey, keyCount, h]
      · simp [findKey, keyCount, h, ih]

theorem findKey_some (slots : List (Option MsgQueue)) (key : Int) :
    ∀ i, findKey slots key = some i →
      ∃ q, slots.getD i none = some q ∧ q.key = key := by
  induction slots with
  | nil => intro i h; simp [findKey] at h
  | cons s rest ih =>
    intro i h
    cases s with
    | none =>
      simp only [findKey, Option.map_eq_some'] at h
      obtain ⟨j, hj, rfl⟩ := h
      obtain ⟨q, hq, hk⟩ := ih j hj
      exact ⟨q, by simpa using hq, hk⟩
    | some q =>
      by_cases hk : q.key = key
      · simp only [findKey, hk, if_true, Option.some.injEq] at h
        subst h
        exact ⟨q, by simp, hk⟩
      · simp only [findKey, hk, if_false, Option.map_eq_some'] at h
        obtain ⟨j, hj, rfl⟩ := h
        obtain ⟨q', hq, hk'⟩ := ih j hj
        exact ⟨q', by simpa using hq, hk'⟩

theorem keyCount_append (a b : List (Option MsgQueue)) (key : Int) :
    keyCount (a ++ b) key = keyCount a key + keyCount b key := by
  induction a with
  | nil => simp [keyCount]
  | cons s rest ih =>
    cases s with
    | none => simp [keyCount, ih]
    | some q => simp [keyCount, ih, Nat.add_assoc]

theorem findKey_append_new (slots : List (Option MsgQueue)) (key : Int) (msgs : List Msg)
    (h : findKey slots key = none) :
    findKey (slots ++ [some { key := key, msgs := msgs }]) key = some slots.length := by
  induction slots with
  | nil => simp [findKey]
  | cons s rest ih =>
    cases s with
    | none =>
      simp only [findKey, Option.map_eq_none'] at h
      simp [findKey, ih h]
    | some q =>
      by_cases hk : q.key = key
      · simp [findKey, hk] at h
      · simp only [findKey, hk, if_false, Option.map_eq_none'] at h
        simp [findKey, hk, ih h]

theorem getD_append_new (slots : List (Option MsgQueue)) (x : Option MsgQueue) :
    (slots ++ [x]).getD slots.length none = x := by
  simp [List.getD_eq_getElem?_getD]

/-- Replacing a queue by one with the same key changes neither the count nor
the first queue of any key. -/
theorem keyCount_set_same (slots : List (Option MsgQueue)) (key : Int) :
    ∀ (i : Nat) (q q' : MsgQueue), slots.getD i none = some q → q'.key = q.key →
      keyCount (slots.set i (some q')) key = keyCount slots key := by
  induction slots with
  | nil => intro i q q' h; simp at h
  | cons s rest ih =>
    intro i q q' h hk
    cases i with
    | zero =>
      simp only [List.getD_cons_zero] at h
      subst h
      simp [keyCount, hk]
    | succ i =>
      simp only [List.getD_cons_succ] at h
      cases s with
      | none => simp [keyCount, ih i q q' h hk]
      | some q0 => simp [keyCount, ih i q q' h hk]

theorem findKey_set_same (slots : List (Option MsgQueue)) (key : Int) :
    ∀ (i : Nat) (q q' : MsgQueue), slots.getD i none = some q → q'.key = q.key →
      findKey (slots.set i (some q')) key = findKey slots key := by
  induction slots with
  | nil => intro i q q' h; simp at h
  | cons s rest ih =>
    intro i q q' h hk
    cases i with
    | zero =>
      simp only [List.getD_cons_zero] at h
      subst h
      simp [findKey, hk]
    | succ i =>
      simp only [List.getD_cons_succ] at h
      cases s with
      | none => simp [findKey, ih i q q' h hk]
      | some q0 => simp [findKey, ih i q q' h hk]

theorem getD_set_self (slots : List (Option MsgQueue)) :
    ∀ (i : Nat) (q : MsgQueue) (x : Option MsgQueue), slots.getD i none = some q →
      (slots.set i x).getD i none = x := by
  induction slots with
  | nil => intro i q x h; simp at h
  | cons s rest ih =>
    intro i q x h
    cases i with
    | zero => simp
    | succ i =>
      simp only [List.getD_cons_succ] at h
      simpa using ih i q x h

/-- Removing a queue lowers the count of its key by one and leaves the other
counts. -/
theorem keyCount_set_none (slots : List (Option MsgQueue)) (key : Int) :
    ∀ (i : Nat) (q : MsgQueue), slots.getD i none = some q →
      keyCount (slots.set i none) key + (if q.key = key then 1 else 0)
        = keyCount slots key := by
  induction slots with
  | nil => intro i q h; simp at h
  | cons s rest ih =>
    intro i q h
    cases i with
    | zero =>
      simp only [List.getD_cons_zero] at h
      subst h
      simp [keyCount, Nat.add_comm]
    | succ i =>
      simp only [List.getD_cons_succ] at h
      have := ih i q h
      cases s with
      | none => simpa [keyCount] using this
      | some q0 =>
        simp only [List.set_cons_succ, keyCount]
        omega

/-! ## The calls on the queue table -/

theorem Kernel.sameKeys_refl (K : Kernel) : K.sameKeys K := ⟨rfl, fun _ => rfl⟩

theorem Kernel.sameKeys_trans {K K' K'' : Kernel} (h : K.sameKeys K') (h' : K'.sameKeys K'') :
    K.sameKeys K'' :=
  ⟨h'.1.trans h.1, fun key => (h'.2 key).trans (h.2 key)⟩

theorem Kernel.queue_nat (K : Kernel) (i : Nat) : K.queue (i : Int) = K.slots.getD i none := by
  have : ¬ ((i : Int) < 0) := by omega
  simp [Kernel.queue, this]

theorem Kernel.queue_some (K : Kernel) (msqid : Int) (q : MsgQueue)
    (h : K.queue msqid = some q) : K.slots.getD msqid.toNat none = some q := by
  unfold Kernel.queue at h
  split_ifs at h
  exact h

/-- The key of a path is never `IPC_PRIVATE`: it is -1 or has `PROJ_ID` in its
high byte. -/
theorem getk_ne_private (path : List Nat) (K : Kernel) :
    getk kernelSys path K ≠ IPC_PRIVATE := by
  simp only [getk, kernel_ftok, Kernel.ftok, IPC_PRIVATE, PROJ_ID]
  cases K.stat path with
  | none => simp
  | some p =>
    obtain ⟨dev, ino⟩ := p
    simp only
    unfold int32
    norm_num
    omega

theorem getk_stat (path : List Nat) (K K' : Kernel) (h : K'.stat = K.stat) :
    getk kernelSys path K' = getk kernelSys path K := by
  simp [getk, Kernel.ftok, h]

theorem flag_creat : (0o666 ||| IPC_CREAT) &&& IPC_CREAT ≠ 0 := by decide
theorem flag_creat_excl : (0o666 ||| IPC_CREAT) &&& IPC_EXCL = 0 := by decide
theorem flag_uniq_creat : (0o666 ||| IPC_CREAT ||| IPC_EXCL) &&& IPC_CREAT ≠ 0 := by decide
theorem flag_uniq_excl : (0o666 ||| IPC_CREAT ||| IPC_EXCL) &&& IPC_EXCL ≠ 0 := by decide

theorem getqk_present (path : List Nat) (K : Kernel) (i : Nat)
    (h : findKey K.slots (getk kernelSys path K) = some i) :
    getqk kernelSys path K = ((i : Int), K) := by
  have hp := getk_ne_private path K
  simp [getqk, Kernel.msgget, hp, h, flag_creat_excl, msgget_ret]

theorem getqk_absent (path : List Nat) (K : Kernel)
    (h : findKey K.slots (getk kernelSys path K) = none) :
    getqk kernelSys path K
      = ((K.slots.length : Int),
          { K with slots := K.slots ++ [some { key := getk kernelSys path K, msgs := [] }] }) := by
  have hp := getk_ne_private path K
  simp [getqk, Kernel.msgget, hp, h, flag_creat, msgget_ret, Kernel.create]

theorem getqk_uniq_present (path : List Nat) (K : Kernel) (i : Nat)
    (h : findKey K.slots (getk kernelSys path K) = some i) :
    getqk_uniq kernelSys path K = (-1, K) := by
  have hp := getk_ne_private path K
  simp [getqk_uniq, Kernel.msgget, hp, h, flag_uniq_creat, flag_uniq_excl, msgget_ret]

theorem getqk_uniq_absent (path : List Nat) (K : Kernel)
    (h : findKey K.slots (getk kernelSys path K) = none) :
    getqk_uniq kernelSys path K
      = ((K.slots.length : Int),
          { K with slots := K.slots ++ [some { key := getk kernelSys path K, msgs := [] }] }) := by
  have hp := getk_ne_private path K
  simp [getqk_uniq, Kernel.msgget, hp, h, flag_uniq_creat, msgget_ret, Kernel.create]

theorem getqk_exists_present (path : List Nat) (K : Kernel) (i : Nat)
    (h : findKey K.slots (getk kernelSys path K) = some i) :
    getqk_exists kernelSys path K = ((i : Int), K) := by
  have hp := getk_ne_private path K
  simp [getqk_exists, Kernel.msgget, hp, h, msgget_ret]

theorem getqk_exists_absent (path : List Nat) (K : Kernel)
    (h : findKey K.slots (getk kernelSys path K) = none) :
    getqk_exists kernelSys path K = (-1, K) := by
  have hp := getk_ne_private path K
  simp [getqk_exists, Kernel.msgget, hp, h, msgget_ret]

theorem mailbox_eq_none_iff (K : Kernel) (key : Int) :
    K.mailbox key = none ↔ findKey K.slots key = none := by
  unfold Kernel.mailbox
  cases h : findKey K.slots key with
  | none => simp
  | some i =>
    obtain ⟨q, hq, _⟩ := findKey_some K.slots key i h
    simp [hq, -List.getD_eq_getElem?_getD]

/-- The call `getqk` on the queue table always gives a queue with the key of
the path: the first one that has it, or a new, empty one. -/
theorem getqk_kernel (path : List Nat) (K : Kernel) :
    ∃ (i : Nat) (q : MsgQueue) (K' : Kernel),
      getqk kernelSys path K = ((i : Int), K')
      ∧ K'.slots.getD i none = some q
      ∧ q.key = getk kernelSys path K
      ∧ findKey K'.slots (getk kernelSys path K) = some i
      ∧ q.msgs = (K.mailbox (getk kernelSys path K)).getD []
      ∧ K'.stat = K.stat ∧ K'.out = K.out
      ∧ (∀ key, keyCount K'.slots key = keyCount K.slots key
          + (if key = getk kernelSys path K ∧ keyCount K.slots (getk kernelSys path K) = 0
              then 1 else 0)) := by
  cases h : findKey K.slots (getk kernelSys path K) with
  | some i =>
    obtain ⟨q, hq, hk⟩ := findKey_some K.slots _ i h
    refine ⟨i, q, K, getqk_present path K i h, hq, hk, h, ?_, rfl, rfl, ?_⟩
    · simp [Kernel.mailbox, h, hq, -List.getD_eq_getElem?_getD]
    · intro key
      have : keyCount K.slots (getk kernelSys path K) ≠ 0 := by
        intro h0
        rw [← findKey_eq_none_iff] at h0
        rw [h0] at h
        cases h
      simp [this]
  | none =>
    refine ⟨K.slots.length, { key := getk kernelSys path K, msgs := [] }, _,
      getqk_absent path K h, getD_append_new _ _, rfl, findKey_append_new _ _ _ h, ?_, rfl, rfl,
      ?_⟩
    · simp [Kernel.mailbox, h]
    · intro key
      have h0 := (findKey_eq_none_iff _ _).mp h
      simp only [keyCount_append, keyCount, h0, and_true, Nat.add_zero]
      by_cases hk : key = getk kernelSys path K
      · simp [hk]
      · have : ¬ (getk kernelSys path K = key) := fun h => hk h.symm
        simp [hk, this]

theorem msgsnd_ok (K : Kernel) (i : Nat) (q : MsgQueue) (buf : msgbuf) (sz flg : Nat)
    (hq : K.slots.getD i none = some q) (ht : 1 ≤ buf.mtype) :
    K.msgsnd (i : Int) buf sz flg
      = some (.ok (), { K with
          slots := K.slots.set i (some { q with
            msgs := q.msgs ++ [{ mtype := buf.mtype, mtext := buf.mtext.take sz }] }) }) := by
  have : ¬ (buf.mtype < 1) := by omega
  simp [Kernel.msgsnd, Kernel.queue_nat, hq, this, -List.getD_eq_getElem?_getD]

theorem msgrcv_head (K : Kernel) (i : Nat) (q : MsgQueue) (m : Msg) (rest : List Msg)
    (sz flg : Nat) (hq : K.slots.getD i none = some q) (hm : q.msgs = m :: rest)
    (hsz : m.mtext.length ≤ sz) :
    K.msgrcv (i : Int) sz 0 flg
      = some (.ok (m.mtype, m.mtext),
          { K with slots := K.slots.set i (some { q with msgs := rest }) }) := by
  have : ¬ (sz < m.mtext.length) := by omega
  simp [Kernel.msgrcv, Kernel.queue_nat, hq, hm, selectMsg, takeFirst, this,
    -List.getD_eq_getElem?_getD]

theorem rmid_ok (K : Kernel) (i : Nat) (q : MsgQueue) (hq : K.slots.getD i none = some q) :
    K.msgctl_rmid (i : Int) = (.ok (), { K with slots := K.slots.set i none }) := by
  simp [Kernel.msgctl_rmid, Kernel.queue_nat, hq, -List.getD_eq_getElem?_getD]

theorem msgsnd_sameKeys (K K' : Kernel) (msqid : Int) (buf : msgbuf) (sz flg : Nat)
    (r : Except Nat Unit) (h : K.msgsnd msqid buf sz flg = some (r, K')) : K.sameKeys K' := by
  unfold Kernel.msgsnd at h
  cases hq : K.queue msqid with
  | none =>
    simp only [hq, Option.some.injEq, Prod.mk.injEq] at h
    rw [← h.2]; exact K.sameKeys_refl
  | some q =>
    simp only [hq] at h
    split_ifs at h
    · simp only [Option.some.injEq, Prod.mk.injEq] at h
      rw [← h.2]; exact K.sameKeys_refl
    · simp only [Option.some.injEq, Prod.mk.injEq] at h
      rw [← h.2]
      exact ⟨rfl, fun key => keyCount_set_same K.slots key _ q _ (K.queue_some msqid q hq) rfl⟩

theorem msgrcv_sameKeys (K K' : Kernel) (msqid : Int) (sz : Nat) (typ : Int) (flg : Nat)
    (r : Except Nat (Int × List Nat)) (h : K.msgrcv msqid sz typ flg = some (r, K')) :
    K.sameKeys K' := by
  unfold Kernel.msgrcv at h
  cases hq : K.queue msqid with
  | none =>
    simp only [hq, Option.some.injEq, Prod.mk.injEq] at h
    rw [← h.2]; exact K.sameKeys_refl
  | some q =>
    simp only [hq] at h
    cases hs : selectMsg q.msgs typ with
    | none =>
      simp only [hs] at h
      split_ifs at h
      simp only [Option.some.injEq, Prod.mk.injEq] at h
      rw [← h.2]; exact K.sameKeys_refl
    | some p =>
      obtain ⟨m, rest⟩ := p
      simp only [hs] at h
      split_ifs at h
      · simp only [Option.some.injEq, Prod.mk.injEq] at h
        rw [← h.2]; exact K.sameKeys_refl
      · simp only [Option.some.injEq, Prod.mk.injEq] at h
        rw [← h.2]
        exact ⟨rfl, fun key => keyCount_set_same K.slots key _ q _ (K.queue_some msqid q hq) rfl⟩

/-! ## Send and receive on the queue table -/

/-- On the queue table `sq_queue` appends the message to the mailbox of the
path and returns 0. -/
theorem sq_queue_kernel (K : Kernel) (path M rest : List Nat) (buf0 : msgbuf)
    (hM : ∀ c ∈ M, c ≠ 0) (hbuf : buf0.mtext.length = MSIZE) :
    ∃ (i : Nat) (q : MsgQueue) (K' : Kernel),
      getqk kernelSys path K = ((i : Int), K')
      ∧ K'.slots.getD i none = some q
      ∧ q.key = getk kernelSys path K
      ∧ findKey K'.slots (getk kernelSys path K) = some i
      ∧ q.msgs = (K.mailbox (getk kernelSys path K)).getD []
      ∧ K'.stat = K.stat ∧ K'.out = K.out
      ∧ sq_queue kernelSys path (some (M ++ 0 :: rest)) buf0 K
        = some (0, { K' with
            slots := K'.slots.set i (some { q with
              msgs := q.msgs ++ [{ mtype := 1, mtext := M.take 1023 ++ [0] }] }) }) := by
  obtain ⟨i, q, K', hg, hq, hk, hf, hm, hs, ho, _⟩ := getqk_kernel path K
  refine ⟨i, q, K', hg, hq, hk, hf, hm, hs, ho, ?_⟩
  have hi : ¬ ((i : Int) < 0) := by omega
  have h1 := strlen_sq_queue_buf M rest buf0 hM hbuf
  have h2 := take_sq_queue_buf M rest buf0 hM hbuf
  have h3 : (sq_queue_buf (some (M ++ 0 :: rest)) buf0).mtype = 1 := rfl
  have hsnd := msgsnd_ok K' i q (sq_queue_buf (some (M ++ 0 :: rest)) buf0)
    (min M.length 1023 + 1) 0 hq (by rw [h3])
  rw [h2, h3] at hsnd
  simp only [sq_queue, hg, hi, if_false, h1, kernel_msgsnd, hsnd, status_ret]

/-- On the queue table `sq_get` takes the first message of the mailbox, writes
its text as a line unless it is empty, removes the queue when cleanup is
requested, and returns 0. -/
theorem sq_get_kernel (K : Kernel) (path : List Nat) (clean : Int) (buf1 : msgbuf)
    (i : Nat) (q : MsgQueue) (t : Int) (M : List Nat) (rest : List Msg)
    (hf : findKey K.slots (getk kernelSys path K) = some i)
    (hq : K.slots.getD i none = some q)
    (hm : q.msgs = { mtype := t, mtext := M ++ [0] } :: rest)
    (hM : ∀ c ∈ M, c ≠ 0) (hlen : M.length < MSIZE) :
    sq_get kernelSys path clean buf1 K
      = some (0, { K with
          slots := if clean ≠ 0 then K.slots.set i none
            else K.slots.set i (some { q with msgs := rest }),
          out := K.out ++ (if M = [] then [] else M ++ [10]) }) := by
  have hi : ¬ ((i : Int) < 0) := by omega
  have hrcv := msgrcv_head K i q _ rest MSIZE 0 hq hm
    (by simp only [List.length_append, List.length_singleton]; omega)
  have hd := receive_getD { buf1 with mtext := buf1.mtext.set 0 0 } t M hM
  simp only [sq_get, getqk_present path K i hf, hi, if_false, kernel_msgrcv, hrcv,
    receive_cstring _ _ _ hM, printf_line, kernel_stdout, cleanq, kernel_rmid]
  by_cases hMe : M = []
  · rw [if_neg (fun h => (hd.mp h) hMe), if_pos hMe]
    by_cases hc : clean = 0
    · simp [hc]
    · have hq' : (K.slots.set i (some { q with msgs := rest })).getD i none
          = some { q with msgs := rest } := getD_set_self K.slots i q _ hq
      simp [hc, Kernel.msgctl_rmid, Kernel.queue_nat, hq', status_ret,
        -List.getD_eq_getElem?_getD]
  · rw [if_pos (hd.mpr hMe), if_neg hMe]
    by_cases hc : clean = 0
    · simp [hc]
    · have hq' : (K.slots.set i (some { q with msgs := rest })).getD i none
          = some { q with msgs := rest } := getD_set_self K.slots i q _ hq
      simp [hc, Kernel.msgctl_rmid, Kernel.queue_nat, hq', status_ret,
        -List.getD_eq_getElem?_getD]

/-- C2: round trip on the queue table.  For every path whose mailbox holds no
pending message (it is absent or empty) and every payload string `M` with
`|M| ≤ 1023`, `sq_queue` returns 0 and leaves in the mailbox the single
message of type 1 with text `M` and its terminator; `sq_get`, which receives
with `msgtyp = 0`, then returns 0, takes that message from the mailbox and
writes `M` as a line (nothing when `M` is empty): the string received is
`M`. -/
theorem round_trip (K : Kernel) (path M rest : List Nat) (clean : Int) (buf0 buf1 : msgbuf)
    (hM : ∀ c ∈ M, c ≠ 0) (hlen : M.length ≤ 1023) (hbuf : buf0.mtext.length = MSIZE)
    (hempty : (K.mailbox (getk kernelSys path K)).getD [] = []) :
    ∃ K1 K2,
      sq_queue kernelSys path (some (M ++ 0 :: rest)) buf0 K = some (0, K1)
      ∧ K1.mailbox (getk kernelSys path K) = some [{ mtype := 1, mtext := M ++ [0] }]
      ∧ sq_get kernelSys path clean buf1 K1 = some (0, K2)
      ∧ K2.out = K.out ++ (if M = [] then [] else M ++ [10])
      ∧ cstring (M ++ [0]) = M
      ∧ (clean = 0 → K2.mailbox (getk kernelSys path K) = some [])
      ∧ (clean ≠ 0 → ∃ i, findKey K1.slots (getk kernelSys path K) = some i
          ∧ K2.slots.getD i none = none) := by
  obtain ⟨i, q, K', _, hq, hk, hf, hm, hs, ho, hsend⟩ :=
    sq_queue_kernel K path M rest buf0 hM hbuf
  rw [hempty] at hm
  rw [hm, List.take_of_length_le hlen, List.nil_append] at hsend
  have hq1 := getD_set_self K'.slots i q
    (some { q with msgs := [{ mtype := 1, mtext := M ++ [0] }] }) hq
  have hf1 : findKey (K'.slots.set i (some { q with msgs := [{ mtype := 1, mtext := M ++ [0] }] }))
      (getk kernelSys path K) = some i :=
    (findKey_set_same K'.slots (getk kernelSys path K) i q
      { q with msgs := [{ mtype := 1, mtext := M ++ [0] }] } hq rfl).trans hf
  have hkey : getk kernelSys path
      { K' with slots := K'.slots.set i (some { q with msgs := [{ mtype := 1, mtext := M ++ [0] }] }) }
      = getk kernelSys path K := getk_stat path K _ hs
  have hget := sq_get_kernel
    { K' with slots := K'.slots.set i (some { q with msgs := [{ mtype := 1, mtext := M ++ [0] }] }) }
    path clean buf1 i { q with msgs := [{ mtype := 1, mtext := M ++ [0] }] } 1 M []
    (by rw [hkey]; exact hf1) hq1 rfl hM (by simp only [MSIZE]; omega)
  refine ⟨_, _, hsend, ?_, hget, ?_, cstring_append_zero M [] hM, ?_, ?_⟩
  · simp only [Kernel.mailbox, hf1, hq1, Option.map_some']
  · simp only [ho]
  · intro hc
    have hq2 := getD_set_self _ i _ (some { q with msgs := ([] : List Msg) }) hq1
    have hf2 := findKey_set_same _ (getk kernelSys path K) i _
      { q with msgs := ([] : List Msg) } hq1 rfl
    simp only [Kernel.mailbox, hc, ne_eq, not_true_eq_false, if_false, hf2, hf1, hq2,
      Option.map_some']
  · intro hc
    refine ⟨i, hf1, ?_⟩
    simp only [hc, ne_eq, not_false_eq_true, if_true]
    exact getD_set_self _ i _ none hq1

/-- Witness of C2: the message "ping" through the mailbox of `/tmp/q1`, with
cleanup. -/
theorem round_trip_witness :
    ∃ K1 K2,
      sq_queue kernelSys (chars "/tmp/q1") (some (chars "ping" ++ 0 :: [])) stackBuf bootKernel
        = some (0, K1)
      ∧ sq_get kernelSys (chars "/tmp/q1") 1 stackBuf K1 = some (0, K2)
      ∧ K2.out = chars "ping" ++ [10] :=
  match round_trip bootKernel (chars "/tmp/q1") (chars "ping") [] 1 stackBuf stackBuf
      (by decide) (by decide) (by simp [stackBuf]) rfl with
  | ⟨K1, K2, h1, _, h2, ho, _⟩ => ⟨K1, K2, h1, h2, ho⟩

/-! ## The lifecycle of a mailbox -/

theorem msgrcv_cases (K : Kernel) (i : Nat) (q : MsgQueue) (sz flg : Nat)
    (hq : K.slots.getD i none = some q) :
    K.msgrcv (i : Int) sz 0 flg
      = match q.msgs with
        | [] => if flg &&& IPC_NOWAIT ≠ 0 then some (.error ENOMSG, K) else none
        | m :: rest =>
          if sz < m.mtext.length then some (.error E2BIG, K)
          else some (.ok (m.mtype, m.mtext),
            { K with slots := K.slots.set i (some { q with msgs := rest }) }) := by
  cases hm : q.msgs with
  | nil => simp [Kernel.msgrcv, Kernel.queue_nat, hq, hm, selectMsg, takeFirst,
      -List.getD_eq_getElem?_getD]
  | cons m rest => simp [Kernel.msgrcv, Kernel.queue_nat, hq, hm, selectMsg, takeFirst,
      -List.getD_eq_getElem?_getD]

theorem msgrcv_holds (K K' : Kernel) (i : Nat) (sz flg : Nat) (key : Int)
    (r : Except Nat (Int × List Nat)) (h : K.msgrcv (i : Int) sz 0 flg = some (r, K'))
    (hh : K.holds i key) : K'.holds i key := by
  obtain ⟨q, hq, hk⟩ := hh
  rw [msgrcv_cases K i q sz flg hq] at h
  cases hm : q.msgs with
  | nil =>
    simp only [hm] at h
    split_ifs at h
    simp only [Option.some.injEq, Prod.mk.injEq] at h
    rw [← h.2]; exact ⟨q, hq, hk⟩
  | cons m rest =>
    simp only [hm] at h
    split_ifs at h
    · simp only [Option.some.injEq, Prod.mk.injEq] at h
      rw [← h.2]; exact ⟨q, hq, hk⟩
    · simp only [Option.some.injEq, Prod.mk.injEq] at h
      rw [← h.2]
      exact ⟨_, getD_set_self K.slots i q _ hq, hk⟩

/-- Removing the queue of slot `i`, which has the key, succeeds and lowers the
count of the key by one. -/
theorem rmid_holds (K : Kernel) (i : Nat) (key : Int) (hh : K.holds i key) :
    K.msgctl_rmid (i : Int) = (.ok (), { K with slots := K.slots.set i none })
    ∧ keyCount (K.slots.set i none) key + 1 = keyCount K.slots key := by
  obtain ⟨q, hq, hk⟩ := hh
  refine ⟨rmid_ok K i q hq, ?_⟩
  have := keyCount_set_none K.slots key i q hq
  simpa [hk] using this

/-- The poll loop on the queue table keeps the keys and the queue of slot
`i`. -/
theorem sq_get_t_loop_kernel (i : Nat) (key : Int) :
    ∀ (n : Nat) (retval : Int) (buf : msgbuf) (K K1 : Kernel)
      (res : Except Int (Int × msgbuf)),
      K.holds i key →
      sq_get_t_loop kernelSys (i : Int) n retval buf K = some (res, K1) →
      K.sameKeys K1 ∧ K1.holds i key := by
  intro n
  induction n with
  | zero =>
    intro retval buf K K1 res hh h
    simp only [sq_get_t_loop, Option.some.injEq, Prod.mk.injEq] at h
    rw [← h.2]; exact ⟨K.sameKeys_refl, hh⟩
  | succ n ih =>
    intro retval buf K K1 res hh h
    simp only [sq_get_t_loop, kernel_msgrcv, kernel_usleep] at h
    cases hr : K.msgrcv (i : Int) MSIZE 0 IPC_NOWAIT with
    | none => simp [hr] at h
    | some a =>
      obtain ⟨ans, K'⟩ := a
      have hs := msgrcv_sameKeys K K' _ _ _ _ _ hr
      have hh' := msgrcv_holds K K' i _ _ key _ hr hh
      cases ans with
      | ok m =>
        simp only [hr, Option.some.injEq, Prod.mk.injEq] at h
        rw [← h.2]; exact ⟨hs, hh'⟩
      | error e =>
        simp only [hr] at h
        by_cases he : e = ENOMSG
        · simp only [he, ne_eq, not_true_eq_false, if_false] at h
          have hh'' : ({ K' with clock := K'.clock + POLL_INTERVAL_USEC } : Kernel).holds i key :=
            hh'
          obtain ⟨h1, h2⟩ := ih _ _ _ _ _ hh'' h
          exact ⟨Kernel.sameKeys_trans hs (Kernel.sameKeys_trans ⟨rfl, fun _ => rfl⟩ h1), h2⟩
        · simp only [ne_eq, he, not_false_eq_true, if_true, Option.some.injEq,
            Prod.mk.injEq] at h
          rw [← h.2]; exact ⟨hs, hh'⟩

/-- The call `getqk` on the queue table, for the lifecycle: the queue it gives
has the key of the path, and the count of that key becomes one if it was
zero. -/
theorem getqk_holds (path : List Nat) (K : Kernel) :
    ∃ (i : Nat) (K' : Kernel),
      getqk kernelSys path K = ((i : Int), K')
      ∧ K'.holds i (getk kernelSys path K)
      ∧ K'.stat = K.stat
      ∧ keyCount K'.slots (getk kernelSys path K)
        = keyCount K.slots (getk kernelSys path K)
          + (if keyCount K.slots (getk kernelSys path K) = 0 then 1 else 0) := by
  obtain ⟨i, q, K', hg, hq, hk, _, _, hs, _, hc⟩ := getqk_kernel path K
  refine ⟨i, K', hg, ⟨q, hq, hk⟩, hs, ?_⟩
  have := hc (getk kernelSys path K)
  simpa using this

theorem sq_queue_effect (path : List Nat) (m : Option (List Nat)) (b : msgbuf)
    (K K2 : Kernel) (r : Int) (h : sq_queue kernelSys path m b K = some (r, K2)) :
    K2.stat = K.stat
    ∧ keyCount K2.slots (getk kernelSys path K)
      = keyCount K.slots (getk kernelSys path K)
        + (if keyCount K.slots (getk kernelSys path K) = 0 then 1 else 0) := by
  obtain ⟨i, K', hg, _, hs, hc⟩ := getqk_holds path K
  have hi : ¬ ((i : Int) < 0) := by omega
  simp only [sq_queue, hg, hi, if_false, kernel_msgsnd] at h
  cases hsnd : K'.msgsnd (i : Int) (sq_queue_buf m b) (strlen (sq_queue_buf m b).mtext + 1) 0 with
  | none => simp [hsnd] at h
  | some a =>
    obtain ⟨ans, K1⟩ := a
    simp only [hsnd, Option.some.injEq, Prod.mk.injEq] at h
    obtain ⟨h1, h2⟩ := msgsnd_sameKeys K' K1 _ _ _ _ _ hsnd
    rw [← h.2]
    exact ⟨h1.trans hs, (h2 _).trans hc⟩

theorem printf_line_frame (c : Prop) [Decidable c] (mem : List Nat) (K : Kernel) :
    (if c then printf_line kernelSys mem K else K).slots = K.slots
    ∧ (if c then printf_line kernelSys mem K else K).stat = K.stat := by
  split_ifs <;> exact ⟨rfl, rfl⟩

/-- The cleanup step of `sq_get` and `sq_get_t` on the queue table, when slot
`i` holds the queue of the key: `msgctl` succeeds, so the result is `retval`,
and the count of the key goes down by one when cleanup is requested. -/
theorem cleanup_effect (i : Nat) (key : Int) (clean retval r : Int) (Kp K2 : Kernel)
    (hh : Kp.holds i key)
    (h : (if clean ≠ 0 then
            (if (cleanq kernelSys (i : Int) Kp).1 = -1
              then some ((-1 : Int), (cleanq kernelSys (i : Int) Kp).2)
              else some (retval, (cleanq kernelSys (i : Int) Kp).2))
          else some (retval, Kp)) = some (r, K2)) :
    K2.stat = Kp.stat ∧ r = retval
    ∧ (clean = 0 → keyCount K2.slots key = keyCount Kp.slots key)
    ∧ (clean ≠ 0 → keyCount K2.slots key + 1 = keyCount Kp.slots key) := by
  obtain ⟨hrm, hcnt⟩ := rmid_holds Kp i key hh
  by_cases hc : clean = 0
  · simp only [hc, ne_eq, not_true_eq_false, if_false, Option.some.injEq, Prod.mk.injEq] at h
    rw [← h.2]
    exact ⟨rfl, h.1.symm, fun _ => rfl, fun hne => absurd hc hne⟩
  · have h0 : ¬ (status_ret (Except.ok ()) = -1) := by simp [status_ret]
    simp only [ne_eq, hc, not_false_eq_true, if_true, cleanq, kernel_rmid, hrm, h0, if_false,
      Option.some.injEq, Prod.mk.injEq] at h
    rw [← h.2]
    exact ⟨rfl, h.1.symm, fun h0 => absurd h0 hc, fun _ => hcnt⟩

theorem sq_get_effect (path : List Nat) (clean : Int) (b : msgbuf)
    (K K2 : Kernel) (r : Int) (h : sq_get kernelSys path clean b K = some (r, K2)) :
    K2.stat = K.stat
    ∧ (clean = 0 → keyCount K2.slots (getk kernelSys path K)
      = keyCount K.slots (getk kernelSys path K)
        + (if keyCount K.slots (getk kernelSys path K) = 0 then 1 else 0))
    ∧ (clean ≠ 0 → keyCount K2.slots (getk kernelSys path K)
      ≤ keyCount K.slots (getk kernelSys path K)
        + (if keyCount K.slots (getk kernelSys path K) = 0 then 1 else 0))
    ∧ (clean ≠ 0 → r = 0 → keyCount K2.slots (getk kernelSys path K) + 1
      = keyCount K.slots (getk kernelSys path K)
        + (if keyCount K.slots (getk kernelSys path K) = 0 then 1 else 0)) := by
  obtain ⟨i, K', hg, hh, hs, hc⟩ := getqk_holds path K
  generalize keyCount K.slots (getk kernelSys path K)
    + (if keyCount K.slots (getk kernelSys path K) = 0 then 1 else 0) = c1 at hc ⊢
  have hi : ¬ ((i : Int) < 0) := by omega
  simp only [sq_get, hg, hi, if_false, kernel_msgrcv] at h
  cases hr : K'.msgrcv (i : Int) MSIZE 0 0 with
  | none => simp [hr] at h
  | some a =>
    obtain ⟨ans, K1⟩ := a
    obtain ⟨h1, h2⟩ := msgrcv_sameKeys K' K1 _ _ _ _ _ hr
    have hh1 := msgrcv_holds K' K1 i _ _ _ _ hr hh
    have hc1 : keyCount K1.slots (getk kernelSys path K) = c1 := (h2 _).trans hc
    cases ans with
    | error e =>
      simp only [hr, Option.some.injEq, Prod.mk.injEq] at h
      rw [← h.2]
      refine ⟨h1.trans hs, fun _ => hc1, fun _ => Nat.le_of_eq hc1, fun _ h0 => ?_⟩
      have := h.1; omega
    | ok m =>
      obtain ⟨t, bytes⟩ := m
      simp only [hr] at h
      obtain ⟨hp1, hp2⟩ := printf_line_frame
        ((({ b with mtext := b.mtext.set 0 0 } : msgbuf).receive t bytes).mtext.getD 0 0 ≠ 0)
        (({ b with mtext := b.mtext.set 0 0 } : msgbuf).receive t bytes).mtext K1
      generalize (if (({ b with mtext := b.mtext.set 0 0 } : msgbuf).receive t bytes).mtext.getD 0 0 ≠ 0
        then printf_line kernelSys
          (({ b with mtext := b.mtext.set 0 0 } : msgbuf).receive t bytes).mtext K1
        else K1) = Kp at h hp1 hp2
      have hhp : Kp.holds i (getk kernelSys path K) := by
        obtain ⟨q, hq, hk⟩ := hh1
        exact ⟨q, by rw [hp1]; exact hq, hk⟩
      obtain ⟨e1, _, e3, e4⟩ := cleanup_effect i _ clean 0 r Kp K2 hhp h
      rw [hp1, hc1] at e3 e4
      refine ⟨by rw [e1, hp2, h1, hs], e3, fun hne => ?_, fun hne _ => e4 hne⟩
      have := e4 hne; omega

theorem sq_get_t_loop_error (sys : Sys σ) (msqk : Int) :
    ∀ (n : Nat) (retval : Int) (buf : msgbuf) (s s' : σ) (r : Int),
      sq_get_t_loop sys msqk n retval buf s = some (.error r, s') → r = -1 := by
  intro n
  induction n with
  | zero =>
    intro retval buf s s' r h
    simp [sq_get_t_loop] at h
  | succ n ih =>
    intro retval buf s s' r h
    simp only [sq_get_t_loop] at h
    cases hr : sys.msgrcv msqk MSIZE 0 IPC_NOWAIT s with
    | none => simp [hr] at h
    | some a =>
      obtain ⟨ans, s1⟩ := a
      cases ans with
      | ok m => simp [hr] at h
      | error e =>
        simp only [hr] at h
        by_cases he : e = ENOMSG
        · simp only [he, ne_eq, not_true_eq_false, if_false] at h
          exact ih _ _ _ _ _ h
        · simp only [ne_eq, he, not_false_eq_true, if_true, Option.some.injEq, Prod.mk.injEq,
            Except.error.injEq] at h
          exact h.1.symm

theorem sq_get_t_effect (path : List Nat) (clean sec : Int) (b : msgbuf)
    (K K2 : Kernel) (r : Int) (h : sq_get_t kernelSys path clean sec b K = some (r, K2)) :
    K2.stat = K.stat
    ∧ (clean = 0 → keyCount K2.slots (getk kernelSys path K)
      = keyCount K.slots (getk kernelSys path K)
        + (if keyCount K.slots (getk kernelSys path K) = 0 then 1 else 0))
    ∧ (clean ≠ 0 → keyCount K2.slots (getk kernelSys path K)
      ≤ keyCount K.slots (getk kernelSys path K)
        + (if keyCount K.slots (getk kernelSys path K) = 0 then 1 else 0))
    ∧ (clean ≠ 0 → r = 0 → keyCount K2.slots (getk kernelSys path K) + 1
      = keyCount K.slots (getk kernelSys path K)
        + (if keyCount K.slots (getk kernelSys path K) = 0 then 1 else 0)) := by
  obtain ⟨i, K', hg, hh, hs, hc⟩ := getqk_holds path K
  generalize keyCount K.slots (getk kernelSys path K)
    + (if keyCount K.slots (getk kernelSys path K) = 0 then 1 else 0) = c1 at hc ⊢
  have hi : ¬ ((i : Int) < 0) := by omega
  simp only [sq_get_t, hg, hi, if_false] at h
  cases hl : sq_get_t_loop kernelSys (i : Int) (total_attempts sec).toNat (-1)
      { b with mtext := b.mtext.set 0 0 } K' with
  | none => simp [hl] at h
  | some a =>
    obtain ⟨res, K1⟩ := a
    obtain ⟨⟨h1, h2⟩, hh1⟩ := sq_get_t_loop_kernel i _ _ _ _ _ _ _ hh hl
    have hc1 : keyCount K1.slots (getk kernelSys path K) = c1 := (h2 _).trans hc
    cases res with
    | error r1 =>
      have hr1 := sq_get_t_loop_error kernelSys _ _ _ _ _ _ _ hl
      simp only [hl, Option.some.injEq, Prod.mk.injEq] at h
      rw [← h.2]
      refine ⟨h1.trans hs, fun _ => hc1, fun _ => Nat.le_of_eq hc1, fun _ h0 => ?_⟩
      have := h.1; omega
    | ok p =>
      obtain ⟨retval, buf⟩ := p
      simp only [hl] at h
      obtain ⟨hp1, hp2⟩ := printf_line_frame (buf.mtext.getD 0 0 ≠ 0) buf.mtext K1
      generalize (if buf.mtext.getD 0 0 ≠ 0 then printf_line kernelSys buf.mtext K1 else K1)
        = Kp at h hp1 hp2
      have hhp : Kp.holds i (getk kernelSys path K) := by
        obtain ⟨q, hq, hk⟩ := hh1
        exact ⟨q, by rw [hp1]; exact hq, hk⟩
      obtain ⟨e1, _, e3, e4⟩ := cleanup_effect i _ clean retval r Kp K2 hhp h
      rw [hp1, hc1] at e3 e4
      refine ⟨by rw [e1, hp2, h1, hs], e3, fun hne => ?_, fun hne _ => e4 hne⟩
      have := e4 hne; omega

theorem cleanq_effect (path : List Nat) (K : Kernel) :
    ∃ K2, Call.cleanq.exec path K = some (0, K2)
      ∧ K2.stat = K.stat
      ∧ keyCount K2.slots (getk kernelSys path K) + 1
        = keyCount K.slots (getk kernelSys path K)
          + (if keyCount K.slots (getk kernelSys path K) = 0 then 1 else 0) := by
  obtain ⟨i, K', hg, hh, hs, hc⟩ := getqk_holds path K
  obtain ⟨hrm, hcnt⟩ := rmid_holds K' i _ hh
  refine ⟨{ K' with slots := K'.slots.set i none }, ?_, hs, ?_⟩
  · simp [Call.exec, hg, cleanq, hrm, status_ret]
  · simp only
    rw [hcnt, hc]

theorem count_stat (path : List Nat) (K K2 : Kernel) (h : K2.stat = K.stat) :
    K2.count path = keyCount K2.slots (getk kernelSys path K) := by
  unfold Kernel.count
  rw [getk_stat path K K2 h]

theorem mailbox_none_iff_count (K : Kernel) (path : List Nat) :
    K.mailbox (getk kernelSys path K) = none ↔ K.count path = 0 := by
  rw [mailbox_eq_none_iff, findKey_eq_none_iff]; rfl

theorem getqk_uniq_succeeds_iff (path : List Nat) (K : Kernel) :
    0 ≤ (getqk_uniq kernelSys path K).1 ↔ K.count path = 0 := by
  unfold Kernel.count
  rw [← findKey_eq_none_iff]
  cases h : findKey K.slots (getk kernelSys path K) with
  | none => rw [getqk_uniq_absent path K h]; simp
  | some i => rw [getqk_uniq_present path K i h]; simp

/-- What a call does to the number of queues with the key of the path: only
`getqk_uniq` (when there is none), `getqk` and the functions that call it
create one, and only then when there is none; only a call with cleanup
removes one. -/
theorem exec_effect (path : List Nat) (c : Call) (K K2 : Kernel) (r : Int)
    (h : c.exec path K = some (r, K2)) :
    K2.stat = K.stat
    ∧ (c.cleans = false →
        K2.count path = K.count path
          ∨ K2.count path = K.count path + (if K.count path = 0 then 1 else 0))
    ∧ (c.cleans = false → 0 < K.count path → K2.count path = K.count path)
    ∧ (c.cleans = false → uniqSucceeded (c, r) = true → K.count path = 0 ∧ K2.count path = 1)
    ∧ (K2.count path ≤ K.count path + (if K.count path = 0 then 1 else 0))
    ∧ (c.cleans = true → r = 0 →
        K2.count path + 1 = K.count path + (if K.count path = 0 then 1 else 0)) := by
  have hpos : ∀ n : Nat, 0 < n → n + (if n = 0 then 1 else 0) = n := by
    intro n hn
    have : n ≠ 0 := by omega
    simp [this]
  cases c with
  | getqk_uniq =>
    simp only [Call.exec, Option.some.injEq] at h
    have hiff := getqk_uniq_succeeds_iff path K
    rw [h] at hiff
    simp only at hiff
    cases hf : findKey K.slots (getk kernelSys path K) with
    | none =>
      have h0 : K.count path = 0 := (findKey_eq_none_iff _ _).mp hf
      rw [getqk_uniq_absent path K hf, Prod.mk.injEq] at h
      have hst : K2.stat = K.stat := by rw [← h.2]
      have hcnt : K2.count path = 1 := by
        rw [count_stat path K K2 hst, ← h.2]
        simp only [keyCount_append, keyCount]
        have : keyCount K.slots (getk kernelSys path K) = 0 := h0
        simp [this]
      refine ⟨hst, fun _ => Or.inr ?_, fun _ hp => ?_, fun _ _ => ⟨h0, hcnt⟩, ?_, ?_⟩
      · rw [hcnt, h0]; rfl
      · omega
      · rw [hcnt, h0]; simp
      · intro hc; simp [Call.cleans] at hc
    | some i =>
      have hne : K.count path ≠ 0 := by
        intro h0
        have := (findKey_eq_none_iff _ _).mpr h0
        rw [this] at hf; cases hf
      rw [getqk_uniq_present path K i hf, Prod.mk.injEq] at h
      refine ⟨by rw [← h.2], fun _ => Or.inl (by rw [← h.2]), fun _ _ => by rw [← h.2],
        fun _ hu => ?_, by rw [← h.2]; omega, ?_⟩
      · simp only [uniqSucceeded, decide_eq_true_eq] at hu
        exact absurd (hiff.mp hu) hne
      · intro hc; simp [Call.cleans] at hc
  | getqk =>
    simp only [Call.exec, Option.some.injEq] at h
    obtain ⟨i, K', hg, _, hs, hc⟩ := getqk_holds path K
    rw [hg, Prod.mk.injEq] at h
    rw [h.2] at hs hc
    have hcnt := count_stat path K K2 hs
    rw [hc] at hcnt
    refine ⟨hs, fun _ => Or.inr hcnt, fun _ hp => ?_, fun _ hu => ?_, Nat.le_of_eq hcnt, ?_⟩
    · rw [hcnt]; exact hpos _ hp
    · simp [uniqSucceeded] at hu
    · intro hc; simp [Call.cleans] at hc
  | getqk_exists =>
    simp only [Call.exec, Option.some.injEq] at h
    have hK : K2 = K := by
      cases hf : findKey K.slots (getk kernelSys path K) with
      | none => rw [getqk_exists_absent path K hf, Prod.mk.injEq] at h; exact h.2.symm
      | some i => rw [getqk_exists_present path K i hf, Prod.mk.injEq] at h; exact h.2.symm
    subst hK
    refine ⟨rfl, fun _ => Or.inl rfl, fun _ _ => rfl, fun _ hu => ?_, by omega, ?_⟩
    · simp [uniqSucceeded] at hu
    · intro hc; simp [Call.cleans] at hc
  | sq_queue m b =>
    simp only [Call.exec] at h
    obtain ⟨hs, hc⟩ := sq_queue_effect path m b K K2 r h
    have hcnt := count_stat path K K2 hs
    rw [hc] at hcnt
    refine ⟨hs, fun _ => Or.inr hcnt, fun _ hp => ?_, fun _ hu => ?_, Nat.le_of_eq hcnt, ?_⟩
    · rw [hcnt]; exact hpos _ hp
    · simp [uniqSucceeded] at hu
    · intro hc; simp [Call.cleans] at hc
  | sq_get clean b =>
    simp only [Call.exec] at h
    obtain ⟨hs, e1, e2, e3⟩ := sq_get_effect path clean b K K2 r h
    have hcnt := count_stat path K K2 hs
    rw [← hcnt] at e1 e2 e3
    by_cases hcl : clean = 0
    · have := e1 hcl
      refine ⟨hs, fun _ => Or.inr this, fun _ hp => ?_, fun _ hu => ?_, Nat.le_of_eq this, ?_⟩
      · rw [this]; exact hpos _ hp
      · simp [uniqSucceeded] at hu
      · intro hc; simp [Call.cleans, hcl] at hc
    · refine ⟨hs, fun hc => ?_, fun hc => ?_, fun hc => ?_, e2 hcl, fun _ h0 => e3 hcl h0⟩
      all_goals simp [Call.cleans, hcl] at hc
  | sq_get_t clean sec b =>
    simp only [Call.exec] at h
    obtain ⟨hs, e1, e2, e3⟩ := sq_get_t_effect path clean sec b K K2 r h
    have hcnt := count_stat path K K2 hs
    rw [← hcnt] at e1 e2 e3
    by_cases hcl : clean = 0
    · have := e1 hcl
      refine ⟨hs, fun _ => Or.inr this, fun _ hp => ?_, fun _ hu => ?_, Nat.le_of_eq this, ?_⟩
      · rw [this]; exact hpos _ hp
      · simp [uniqSucceeded] at hu
      · intro hc; simp [Call.cleans, hcl] at hc
    · refine ⟨hs, fun hc => ?_, fun hc => ?_, fun hc => ?_, e2 hcl, fun _ h0 => e3 hcl h0⟩
      all_goals simp [Call.cleans, hcl] at hc
  | cleanq =>
    obtain ⟨K3, hx, hs, hc⟩ := cleanq_effect path K
    rw [hx, Option.some.injEq, Prod.mk.injEq] at h
    rw [h.2] at hs hc
    have hcnt := count_stat path K K2 hs
    rw [← hcnt] at hc
    refine ⟨hs, fun hcl => ?_, fun hcl => ?_, fun hcl => ?_, ?_, fun _ _ => hc⟩
    · simp [Call.cleans] at hcl
    · simp [Call.cleans] at hcl
    · simp [Call.cleans] at hcl
    · have hK : K.count path = keyCount K.slots (getk kernelSys path K) := rfl
      rw [hK]
      omega

theorem runCalls_cons (path : List Nat) (c : Call) (cs : List Call) (K K' : Kernel) (r : Int)
    (h : c.exec path K = some (r, K')) :
    runCalls path (c :: cs) K = ((c, r) :: (runCalls path cs K').1, (runCalls path cs K').2) := by
  simp [runCalls, h]

theorem runCalls_stuck (path : List Nat) (c : Call) (cs : List Call) (K : Kernel)
    (h : c.exec path K = none) : runCalls path (c :: cs) K = ([], K) := by
  simp [runCalls, h]

/-- While the mailbox is present and no call cleans up, no `getqk_uniq`
succeeds. -/
theorem run_present (path : List Nat) :
    ∀ (cs : List Call) (K : Kernel), 0 < K.count path → (∀ c ∈ cs, c.cleans = false) →
      (runCalls path cs K).1.countP uniqSucceeded = 0 := by
  intro cs
  induction cs with
  | nil => intro K _ _; rfl
  | cons c cs ih =>
    intro K hp hcl
    cases hx : c.exec path K with
    | none => rw [runCalls_stuck path c cs K hx]; rfl
    | some a =>
      obtain ⟨r, K'⟩ := a
      rw [runCalls_cons path c cs K K' r hx]
      obtain ⟨_, _, e2, e3, _, _⟩ := exec_effect path c K K' r hx
      have hc := hcl c (List.mem_cons_self _ _)
      have hK' : 0 < K'.count path := by rw [e2 hc hp]; exact hp
      have hu : uniqSucceeded (c, r) = false := by
        cases hb : uniqSucceeded (c, r) with
        | false => rfl
        | true => have := (e3 hc hb).1; omega
      simp only [List.countP_cons, hu, Bool.false_eq_true, if_false, Nat.add_zero]
      exact ih K' hK' (fun d hd => hcl d (List.mem_cons_of_mem _ hd))

/-- From an absent mailbox, as long as no call cleans up, at most one
`getqk_uniq` succeeds. -/
theorem run_absent (path : List Nat) :
    ∀ (cs : List Call) (K : Kernel), K.count path = 0 → (∀ c ∈ cs, c.cleans = false) →
      (runCalls path cs K).1.countP uniqSucceeded ≤ 1 := by
  intro cs
  induction cs with
  | nil => intro K _ _; simp [runCalls]
  | cons c cs ih =>
    intro K h0 hcl
    cases hx : c.exec path K with
    | none => rw [runCalls_stuck path c cs K hx]; simp
    | some a =>
      obtain ⟨r, K'⟩ := a
      rw [runCalls_cons path c cs K K' r hx]
      obtain ⟨_, e1, _, e3, _, _⟩ := exec_effect path c K K' r hx
      have hc := hcl c (List.mem_cons_self _ _)
      have hrest : ∀ d ∈ cs, d.cleans = false := fun d hd => hcl d (List.mem_cons_of_mem _ hd)
      simp only [List.countP_cons]
      cases hb : uniqSucceeded (c, r) with
      | true =>
        have hK' : 0 < K'.count path := by rw [(e3 hc hb).2]; exact Nat.one_pos
        rw [run_present path cs K' hK' hrest]
        simp
      | false =>
        simp only [Bool.false_eq_true, if_false, Nat.add_zero]
        rcases Nat.eq_zero_or_pos (K'.count path) with hz | hpos
        · exact ih K' hz hrest
        · rw [run_present path cs K' hpos hrest]; exact Nat.zero_le _

/-- At most one queue has the key of the path, whatever calls are made. -/
theorem run_count_le_one (path : List Nat) :
    ∀ (cs : List Call) (K : Kernel), K.count path ≤ 1 →
      (runCalls path cs K).2.count path ≤ 1 := by
  intro cs
  induction cs with
  | nil => intro K h; exact h
  | cons c cs ih =>
    intro K h
    cases hx : c.exec path K with
    | none => rw [runCalls_stuck path c cs K hx]; exact h
    | some a =>
      obtain ⟨r, K'⟩ := a
      rw [runCalls_cons path c cs K K' r hx]
      obtain ⟨_, _, _, _, e5, _⟩ := exec_effect path c K K' r hx
      apply ih K'
      by_cases hz : K.count path = 0
      · simp [hz] at e5; exact e5
      · simp [hz] at e5; omega

theorem runCalls_stat (path : List Nat) :
    ∀ (cs : List Call) (K : Kernel), (runCalls path cs K).2.stat = K.stat := by
  intro cs
  induction cs with
  | nil => intro K; rfl
  | cons c cs ih =>
    intro K
    cases hx : c.exec path K with
    | none => rw [runCalls_stuck path c cs K hx]
    | some a =>
      obtain ⟨r, K'⟩ := a
      rw [runCalls_cons path c cs K K' r hx]
      exact (ih K').trans (exec_effect path c K K' r hx).1

/-- C8: on the queue table `getqk_uniq` succeeds exactly when no mailbox
exists for the key of the path, and then the mailbox is present (and empty).
In any sequence of calls of `getqk_uniq`, `getqk`, `getqk_exists`, `sq_queue`,
`sq_get` and `sq_get_t` on one path without cleanup, at most one `getqk_uniq`
succeeds when the mailbox is absent at the start, and none when it is present;
and after any sequence of calls from an absent mailbox, a call with cleanup
that returns 0 leaves the mailbox absent, so that `getqk_uniq` succeeds
again; `cleanq(getqk(path))` always returns 0. -/
theorem uniq_lifecycle (K : Kernel) (path : List Nat) (cs : List Call) :
    (0 ≤ (getqk_uniq kernelSys path K).1 ↔ K.mailbox (getk kernelSys path K) = none)
    ∧ (0 ≤ (getqk_uniq kernelSys path K).1 →
        (getqk_uniq kernelSys path K).2.mailbox (getk kernelSys path K) = some [])
    ∧ (K.mailbox (getk kernelSys path K) = none → (∀ c ∈ cs, c.cleans = false) →
        (runCalls path cs K).1.countP uniqSucceeded ≤ 1)
    ∧ (K.mailbox (getk kernelSys path K) ≠ none → (∀ c ∈ cs, c.cleans = false) →
        (runCalls path cs K).1.countP uniqSucceeded = 0)
    ∧ (K.mailbox (getk kernelSys path K) = none →
        (∀ (c : Call) (K2 : Kernel), c.cleans = true →
          c.exec path (runCalls path cs K).2 = some (0, K2) →
          K2.mailbox (getk kernelSys path K) = none
          ∧ 0 ≤ (getqk_uniq kernelSys path K2).1)
        ∧ ∃ K2, Call.cleanq.exec path (runCalls path cs K).2 = some (0, K2)) := by
  refine ⟨?_, ?_, ?_, ?_, ?_⟩
  · rw [getqk_uniq_succeeds_iff, mailbox_none_iff_count]
  · intro h
    have h0 := (getqk_uniq_succeeds_iff path K).mp h
    have hf : findKey K.slots (getk kernelSys path K) = none :=
      (findKey_eq_none_iff _ _).mpr h0
    rw [getqk_uniq_absent path K hf]
    simp only [Kernel.mailbox, findKey_append_new _ _ _ hf, getD_append_new, Option.map_some']
  · intro h hcl
    exact run_absent path cs K ((mailbox_none_iff_count K path).mp h) hcl
  · intro h hcl
    have : K.count path ≠ 0 := fun h0 => h ((mailbox_none_iff_count K path).mpr h0)
    exact run_present path cs K (Nat.pos_of_ne_zero this) hcl
  · intro h
    have h0 := (mailbox_none_iff_count K path).mp h
    have h1 := run_count_le_one path cs K (by omega)
    have hst := runCalls_stat path cs K
    refine ⟨?_, ?_⟩
    · intro c K2 hc hx
      obtain ⟨hs2, _, _, _, _, e6⟩ := exec_effect path c _ K2 0 hx
      have hcnt := e6 hc rfl
      have hz : K2.count path = 0 := by
        by_cases hz1 : (runCalls path cs K).2.count path = 0
        · simp [hz1] at hcnt; exact hcnt
        · simp [hz1] at hcnt; omega
      have hk2 : getk kernelSys path K2 = getk kernelSys path K :=
        getk_stat path K K2 (hs2.trans hst)
      refine ⟨?_, (getqk_uniq_succeeds_iff path K2).mpr hz⟩
      rw [← hk2]
      exact (mailbox_none_iff_count K2 path).mpr hz
    · obtain ⟨K2, hx, _⟩ := cleanq_effect path (runCalls path cs K).2
      exact ⟨K2, hx⟩

/-- Witness of C8: from a table without queues, `getqk_uniq`, a send and a
second `getqk_uniq`; at most one of the two succeeds. -/
theorem uniq_lifecycle_witness :
    bootKernel.mailbox (getk kernelSys (chars "/tmp/q1") bootKernel) = none
    ∧ (runCalls (chars "/tmp/q1")
        [Call.getqk_uniq, Call.sq_queue (some (chars "ping" ++ [0])) stackBuf, Call.getqk_uniq]
        bootKernel).1.countP uniqSucceeded ≤ 1 :=
  ⟨rfl, (uniq_lifecycle bootKernel (chars "/tmp/q1")
    [Call.getqk_uniq, Call.sq_queue (some (chars "ping" ++ [0])) stackBuf, Call.getqk_uniq]).2.2.1
    rfl (by simp [Call.cleans])⟩

end Ipcq
